import Mathlib

/-!
# WKB decoding in `planar/wkb.go`

A shallow embedding of the `Scan` methods and the `unWKB*` decoders of
`planar/wkb.go`, together with the error values of `errors.go`.

Conventions of the embedding.

* A Go `[]byte` is a `List UInt8`; a slice expression that Go rejects at run time
  (slice bounds out of range) is `none`.  Capacity is identified with length.
* A Go `float64` is identified with its IEEE-754 bit pattern, a natural number
  below `2 ^ 64` (`math.Float64frombits` is a bijection on bit patterns).  The
  decoders only move coordinates around, they never compute with them.
* A Go `error` result is an `Option Error`, `none` being `nil`.
* A method with a pointer receiver returns the receiver after the call next to
  the returned error.
* The package `internal/wkb` imported by `planar/wkb.go` is a parameter `wkb` of
  every function that calls into it, so `wkb.ReadPoint` in the source reads
  `wkb.ReadPoint` here.  `specWkb` is a model of that package written from the
  specification.
-/

namespace Orb

/-! ## Data model -/

/-- The decoding errors declared in `errors.go`. -/
inductive Error where
  | ErrUnsupportedDataType
  | ErrNotWKB
  | ErrIncorrectGeometry
  deriving DecidableEq, Repr

/-- A Go `float64`, identified with its IEEE-754 bit pattern. -/
abbrev Float64 := Nat

/-- The type `planar.Point`, `[2]float64`. -/
structure Point where
  x : Float64
  y : Float64
  deriving DecidableEq, Repr

/-- The type `planar.Segment`, `[2]Point`. -/
structure Segment where
  a : Point
  b : Point
  deriving DecidableEq, Repr

/-- The type `planar.MultiPoint`, `[]Point`; the nil slice is the empty list. -/
abbrev MultiPoint := List Point

/-- The type `planar.LineString`, `[]Point`; the nil slice is the empty list. -/
abbrev LineString := List Point

/-- The `interface{}` value a database driver hands to `Scan`: SQL NULL, a byte
sequence, or a value of some other dynamic type. -/
inductive Value where
  | null
  | bytes (data : List UInt8)
  | other
  deriving DecidableEq, Repr

/-- The zero value `Point{}`. -/
def Point.zero : Point := ⟨0, 0⟩

/-- The zero value `Segment{}`. -/
def Segment.zero : Segment := ⟨Point.zero, Point.zero⟩

/-- The slice expression `data[lo:]`; `none` when `lo` exceeds the length. -/
def sliceFrom (data : List UInt8) (lo : Nat) : Option (List UInt8) :=
  if lo ≤ data.length then some (data.drop lo) else none

/-- The slice expression `data[:hi]`; `none` when `hi` exceeds the length. -/
def sliceTo (data : List UInt8) (hi : Nat) : Option (List UInt8) :=
  if hi ≤ data.length then some (data.take hi) else none

/-- The exported functions of the package `internal/wkb` that `planar/wkb.go`
calls.  The package is not among the embedded sources, so the decoders take it
as a parameter.  `ReadFloat64` may stop with a run-time panic (`none`); the
other functions report malformed input through their `error` result. -/
structure Wkb where
  ReadFloat64 : List UInt8 → Bool → Option Float64
  ReadPoint : List UInt8 → Float64 × Float64 × Option Error
  ValidatePoint : Value → Float64 × Float64 × Bool × Option Error
  ValidateSegment : Value → Option (List UInt8) × Bool × Option Error
  ValidateMultiPoint : Value → Option (List UInt8) × Bool × Int × Option Error
  ValidateLineString : Value → Option (List UInt8) × Bool × Int × Option Error

/-! ## The code of `planar/wkb.go` -/

/-- The method `(p *Point) Scan(value interface{}) error`. -/
def Point.Scan (wkb : Wkb) (p : Point) (value : Value) : Point × Option Error :=
  match wkb.ValidatePoint value with
  | (x, y, isNull, err) =>
    if err ≠ none ∨ isNull = true then (p, err)
    else (⟨x, y⟩, none)

/-- The function `readWKBPoint(data []byte, littleEndian bool) Point`. -/
def readWKBPoint (wkb : Wkb) (data : List UInt8) (littleEndian : Bool) : Option Point :=
  match sliceTo data 8, sliceFrom data 8 with
  | some d0, some d1 =>
    match wkb.ReadFloat64 d0 littleEndian, wkb.ReadFloat64 d1 littleEndian with
    | some x, some y => some ⟨x, y⟩
    | _, _ => none
  | _, _ => none

/-- The function `unWKBSegment(data []byte, littleEndian bool) (Segment, error)`. -/
def unWKBSegment (wkb : Wkb) (data : List UInt8) (littleEndian : Bool) :
    Option (Segment × Option Error) :=
  match sliceTo data 16, sliceFrom data 16 with
  | some d0, some d1 =>
    match readWKBPoint wkb d0 littleEndian, readWKBPoint wkb d1 littleEndian with
    | some a, some b => some (⟨a, b⟩, none)
    | _, _ => none
  | _, _ => none

/-- The method `(s *Segment) Scan(value interface{}) error`. -/
def Segment.Scan (wkb : Wkb) (s : Segment) (value : Value) : Option (Segment × Option Error) :=
  match wkb.ValidateSegment value with
  | (data, littleEndian, err) =>
    if err ≠ none ∨ data = none then some (s, err)
    else unWKBSegment wkb (data.getD []) littleEndian

/-- The method `(r *Rect) Scan(value interface{}) error`.  The type `Rect` and the
method `Segment.Bound` are declared outside `planar/wkb.go`; they are the
parameters `R` and `Bound`. -/
def Rect.Scan {R : Type} (wkb : Wkb) (Bound : Segment → R) (r : R) (value : Value) :
    Option (R × Option Error) :=
  match Segment.Scan wkb Segment.zero value with
  | none => none
  | some (_, some err) => some (r, some err)
  | some (s, none) => some (Bound s, none)

/-- The loop of `unWKBMultiPoint`: `todo` iterations remain, `i` is the loop
variable and `points` the slice written so far. -/
def unWKBMultiPoint.loop (wkb : Wkb) (data : List UInt8) :
    Nat → Nat → List Point → Option (MultiPoint × Option Error)
  | 0, _, points => some (points, none)
  | todo + 1, i, points =>
    match sliceFrom data (21 * i) with
    | none => none
    | some d =>
      match wkb.ReadPoint d with
      | (_, _, some err) => some ([], some err)
      | (x, y, none) => unWKBMultiPoint.loop wkb data todo (i + 1) (points.set i ⟨x, y⟩)

/-- The function
`unWKBMultiPoint(data []byte, littleEndian bool, length int) (MultiPoint, error)`.
`make` panics on a negative length.  It also panics on a length beyond what the
run time can allocate; that limit depends on the platform and is not part of the
model, so a statement about this function is about a count that `make` accepts:
one bounded by the payload or by the 4-byte count field. -/
def unWKBMultiPoint (wkb : Wkb) (data : List UInt8) (_littleEndian : Bool) (length : Int) :
    Option (MultiPoint × Option Error) :=
  if length < 0 then none
  else unWKBMultiPoint.loop wkb data length.toNat 0 (List.replicate length.toNat Point.zero)

/-- The method `(mp *MultiPoint) Scan(value interface{}) error`. -/
def MultiPoint.Scan (wkb : Wkb) (mp : MultiPoint) (value : Value) :
    Option (MultiPoint × Option Error) :=
  match wkb.ValidateMultiPoint value with
  | (data, littleEndian, length, err) =>
    if err ≠ none ∨ data = none then some (mp, err)
    else unWKBMultiPoint wkb (data.getD []) littleEndian length

/-- The loop of `unWKBLineString`: `todo` iterations remain, `i` is the loop
variable and `points` the slice written so far. -/
def unWKBLineString.loop (wkb : Wkb) (data : List UInt8) (littleEndian : Bool) :
    Nat → Nat → List Point → Option LineString
  | 0, _, points => some points
  | todo + 1, i, points =>
    match sliceFrom data (16 * i) with
    | none => none
    | some d =>
      match readWKBPoint wkb d littleEndian with
      | none => none
      | some p => unWKBLineString.loop wkb data littleEndian todo (i + 1) (points.set i p)

/-- The function
`unWKBLineString(data []byte, littleEndian bool, length int) (LineString, error)`.
`make` panics on a negative length.  It also panics on a length beyond what the
run time can allocate; that limit depends on the platform and is not part of the
model, so a statement about this function is about a count that `make` accepts:
one bounded by the payload or by the 4-byte count field. -/
def unWKBLineString (wkb : Wkb) (data : List UInt8) (littleEndian : Bool) (length : Int) :
    Option (LineString × Option Error) :=
  if length < 0 then none
  else
    match unWKBLineString.loop wkb data littleEndian length.toNat 0
        (List.replicate length.toNat Point.zero) with
    | none => none
    | some points => some (points, none)

/-- The method `(ls *LineString) Scan(value interface{}) error`. -/
def LineString.Scan (wkb : Wkb) (ls : LineString) (value : Value) :
    Option (LineString × Option Error) :=
  match wkb.ValidateLineString value with
  | (data, littleEndian, length, err) =>
    if err ≠ none ∨ data = none then some (ls, err)
    else unWKBLineString wkb (data.getD []) littleEndian length

/-! ## A model of the package `internal/wkb`, written from the specification -/

/-- The unsigned integer spelled by `bs`, least significant byte first. -/
def littleEndianNat (bs : List UInt8) : Nat :=
  bs.foldr (fun b acc => b.toNat + 256 * acc) 0

/-- The unsigned integer spelled by `bs`, most significant byte first. -/
def bigEndianNat (bs : List UInt8) : Nat :=
  bs.foldl (fun acc b => b.toNat + 256 * acc) 0

/-- The unsigned integer spelled by the `width` bytes of `data` from offset `off`
on, in the given byte order. -/
def scalarAt (data : List UInt8) (off width : Nat) (littleEndian : Bool) : Nat :=
  if littleEndian then littleEndianNat ((data.drop off).take width)
  else bigEndianNat ((data.drop off).take width)

/-- Modelled from the spec: `ReadUint32` of the package `internal/wkb`, which is
not part of the embedded sources (section 4.1, `read_u32`).  It decodes the
leading four bytes of the slice in the given byte order and performs no bounds
validation of its own: a slice shorter than four bytes is a run-time panic. -/
def specReadUint32 (data : List UInt8) (littleEndian : Bool) : Option Nat :=
  if 4 ≤ data.length then some (scalarAt data 0 4 littleEndian) else none

/-- Modelled from the spec: `ReadFloat64` of the package `internal/wkb`, which is
not part of the embedded sources (section 4.1, `read_f64`).  It decodes the
leading eight bytes of the slice in the given byte order and performs no bounds
validation of its own: a slice shorter than eight bytes is a run-time panic. -/
def specReadFloat64 (data : List UInt8) (littleEndian : Bool) : Option Float64 :=
  if 8 ≤ data.length then some (scalarAt data 0 8 littleEndian) else none

/-- Modelled from the spec: the Format Detector of section 4.3 for a geometry kind
of fixed base length `L`, a component of the package `internal/wkb` that is not
part of the embedded sources.  Length `L` is pure WKB, length `L + 4` is the
SRID variant whose leading four bytes are dropped, any other length is `NotWKB`. -/
def specDetectFormat (L : Nat) (data : List UInt8) : Except Error (List UInt8) :=
  if data.length = L then .ok data
  else if data.length = L + 4 then .ok (data.drop 4)
  else .error .ErrNotWKB

/-- Modelled from the spec: the Header Validator of section 4.4, a component of the
package `internal/wkb` that is not part of the embedded sources.  Byte 0 is the
endianness flag (0 big-endian, 1 little-endian, as in the glossary), bytes 1 to 4
the type code; a type code other than `expected` is `IncorrectGeometry`.  The
specification names no flag value besides 0 and 1; such a header is taken to be
invalid WKB data, the condition `errors.go` documents for `ErrNotWKB`.  The
result is the declared byte order (`true` for little-endian). -/
def specValidateHeader (expected : Nat) (data : List UInt8) : Except Error Bool :=
  if data.length < 5 then .error .ErrNotWKB
  else
    match data.head? with
    | some 0 => if scalarAt data 1 4 false = expected then .ok false
                else .error .ErrIncorrectGeometry
    | some 1 => if scalarAt data 1 4 true = expected then .ok true
                else .error .ErrIncorrectGeometry
    | _ => .error .ErrNotWKB

/-- Modelled from the spec: `ReadPoint` of the package `internal/wkb`, which is not
part of the embedded sources (sections 4.5 and 4.6).  The slice starts with a
complete Point geometry of 21 bytes: a truncated slice is `NotWKB`, the header
must carry type code 1, then x is decoded from bytes 5 to 12 and y from bytes 13
to 20 in the byte order the header declares. -/
def specReadPoint (data : List UInt8) : Float64 × Float64 × Option Error :=
  if data.length < 21 then (0, 0, some .ErrNotWKB)
  else
    match specValidateHeader 1 data with
    | .error e => (0, 0, some e)
    | .ok littleEndian =>
      (scalarAt data 5 8 littleEndian, scalarAt data 13 8 littleEndian, none)

/-- Modelled from the spec: `ValidatePoint` of the package `internal/wkb`, which is
not part of the embedded sources (sections 4.2 to 4.5).  NULL is reported as
is-null without error, and so is an empty byte sequence (the empty column of the
doc comment of `Point.Scan`); a value that is no byte sequence is
`UnsupportedDataType`; a byte sequence goes through the Format Detector with
base length 21 and then through the Point decoder. -/
def specValidatePoint (value : Value) : Float64 × Float64 × Bool × Option Error :=
  match value with
  | .null => (0, 0, true, none)
  | .other => (0, 0, false, some .ErrUnsupportedDataType)
  | .bytes data =>
    if data.length = 0 then (0, 0, true, none)
    else
      match specDetectFormat 21 data with
      | .error e => (0, 0, false, some e)
      | .ok d =>
        match specReadPoint d with
        | (x, y, err) => (x, y, false, err)

/-- Modelled from the spec: `ValidateSegment` of the package `internal/wkb`, which
is not part of the embedded sources (sections 4.2 to 4.5).  NULL and the empty
byte sequence give nil data without error; a byte sequence goes through the
Format Detector with base length 41, the Header Validator with type code 2, and
the check that the point count in bytes 5 to 8 is exactly 2 (else
`IncorrectGeometry`).  The data returned is the 32-byte payload after the 9-byte
header. -/
def specValidateSegment (value : Value) : Option (List UInt8) × Bool × Option Error :=
  match value with
  | .null => (none, false, none)
  | .other => (none, false, some .ErrUnsupportedDataType)
  | .bytes data =>
    if data.length = 0 then (none, false, none)
    else
      match specDetectFormat 41 data with
      | .error e => (none, false, some e)
      | .ok d =>
        match specValidateHeader 2 d with
        | .error e => (none, false, some e)
        | .ok littleEndian =>
          if scalarAt d 5 4 littleEndian = 2 then (some (d.drop 9), littleEndian, none)
          else (none, false, some .ErrIncorrectGeometry)

/-- The element count a trial 9-byte header at the start of `data` declares, when
the header has a defined endianness flag and the count accounts for the whole
length of `data` at `stride` bytes per element. -/
def specTrialHeader (stride : Nat) (data : List UInt8) : Option Nat :=
  if data.length < 9 then none
  else
    match data.head? with
    | some 0 =>
      if data.length = 9 + stride * scalarAt data 5 4 false then some (scalarAt data 5 4 false)
      else none
    | some 1 =>
      if data.length = 9 + stride * scalarAt data 5 4 true then some (scalarAt data 5 4 true)
      else none
    | _ => none

/-- Modelled from the spec: the validation of a variable-length geometry (general
MultiPoint and LineString) in the package `internal/wkb`, which is not part of
the embedded sources (section 4.3, two-pass structure).  A trial 9-byte header
is parsed assuming pure WKB; when the count it declares does not account for the
length, the same is tried behind a 4-byte SRID field; when neither matches the
result is `NotWKB`.  The Header Validator then checks the type code `code`.  The
data returned is the payload after the 9-byte header. -/
def specValidateVariable (code stride : Nat) (value : Value) :
    Option (List UInt8) × Bool × Int × Option Error :=
  match value with
  | .null => (none, false, 0, none)
  | .other => (none, false, 0, some .ErrUnsupportedDataType)
  | .bytes data =>
    if data.length = 0 then (none, false, 0, none)
    else
      match specTrialHeader stride data, specTrialHeader stride (data.drop 4) with
      | some count, _ =>
        match specValidateHeader code data with
        | .error e => (none, false, 0, some e)
        | .ok littleEndian => (some (data.drop 9), littleEndian, (count : Int), none)
      | none, some count =>
        match specValidateHeader code (data.drop 4) with
        | .error e => (none, false, 0, some e)
        | .ok littleEndian => (some (data.drop 13), littleEndian, (count : Int), none)
      | none, none => (none, false, 0, some .ErrNotWKB)

/-- Modelled from the spec: `ValidateMultiPoint` of the package `internal/wkb`,
which is not part of the embedded sources: type code 4, 21 bytes per element
(section 4.6). -/
def specValidateMultiPoint (value : Value) : Option (List UInt8) × Bool × Int × Option Error :=
  specValidateVariable 4 21 value

/-- Modelled from the spec: `ValidateLineString` of the package `internal/wkb`,
which is not part of the embedded sources: type code 2, 16 bytes per point
(section 4.6). -/
def specValidateLineString (value : Value) : Option (List UInt8) × Bool × Int × Option Error :=
  specValidateVariable 2 16 value

/-- Modelled from the spec: the package `internal/wkb`, which is not part of the
embedded sources, assembled from the models above. -/
def specWkb : Wkb where
  ReadFloat64 := specReadFloat64
  ReadPoint := specReadPoint
  ValidatePoint := specValidatePoint
  ValidateSegment := specValidateSegment
  ValidateMultiPoint := specValidateMultiPoint
  ValidateLineString := specValidateLineString

/-! ## A conforming MultiPoint writer, written from the specification -/

/-- The `width` low-order bytes of `v`, least significant byte first. -/
def littleEndianBytes : Nat → Nat → List UInt8
  | 0, _ => []
  | width + 1, v => UInt8.ofNat v :: littleEndianBytes width (v / 256)

/-- The `width`-byte encoding of `v` in the given byte order. -/
def putScalar (width v : Nat) (littleEndian : Bool) : List UInt8 :=
  if littleEndian then littleEndianBytes width v else (littleEndianBytes width v).reverse

/-- The endianness flag of a WKB header: 1 for little-endian, 0 for big-endian. -/
def endianFlag (littleEndian : Bool) : UInt8 :=
  if littleEndian then 1 else 0

/-- A complete Point geometry of 21 bytes: endianness flag, type code 1, x, y. -/
def encodePoint (littleEndian : Bool) (p : Point) : List UInt8 :=
  [endianFlag littleEndian] ++ putScalar 4 1 littleEndian ++
    putScalar 8 p.x littleEndian ++ putScalar 8 p.y littleEndian

/-- The elements of a MultiPoint buffer, one complete Point geometry each. -/
def encodePoints (littleEndian : Bool) : List Point → List UInt8
  | [] => []
  | p :: ps => encodePoint littleEndian p ++ encodePoints littleEndian ps

/-- A MultiPoint buffer as section 4.6 lays it out: endianness flag, type code 4,
4-byte element count, then one complete 21-byte Point geometry per coordinate. -/
def encodeMultiPoint (littleEndian : Bool) (cs : List Point) : List UInt8 :=
  [endianFlag littleEndian] ++ putScalar 4 4 littleEndian ++
    putScalar 4 cs.length littleEndian ++ encodePoints littleEndian cs

/-- A coordinate pair whose two components are 64-bit patterns, that is, Go
`float64` values. -/
def Point.IsFloat64 (p : Point) : Prop :=
  p.x < 2 ^ 64 ∧ p.y < 2 ^ 64

/-! ## Sample buffers -/

/-- Five MultiPoint elements of which the third declares type code 2. -/
def fiveElementsThirdLineString : List UInt8 :=
  encodePoint true ⟨1, 2⟩ ++ encodePoint true ⟨3, 4⟩ ++
    ([1, 2, 0, 0, 0] ++ putScalar 8 5 true ++ putScalar 8 6 true) ++
    encodePoint true ⟨7, 8⟩ ++ encodePoint true ⟨9, 10⟩

/-- The 21-byte element `i` of a MultiPoint payload. -/
def elementAt (data : List UInt8) (i : Nat) : List UInt8 :=
  (data.drop (21 * i)).take 21

/-- The point `p` is what the complete 21-byte element `i` of the payload spells:
the element carries a defined endianness flag of its own, `p` is read from its
bytes 5 to 12 and 13 to 20 in that byte order, and this is what `ReadPoint`
yields for the element. -/
def DecodesElement (data : List UInt8) (i : Nat) (p : Point) : Prop :=
  (elementAt data i).length = 21 ∧
  ∃ own : Bool, (elementAt data i).head? = some (endianFlag own) ∧
    p = ⟨scalarAt (elementAt data i) 5 8 own, scalarAt (elementAt data i) 13 8 own⟩ ∧
    specWkb.ReadPoint (elementAt data i) = (p.x, p.y, none)

/-- A MultiPoint payload of two elements, the first little-endian and the second
big-endian. -/
def mixedEndianElements : List UInt8 :=
  encodePoint true ⟨1, 2⟩ ++ encodePoint false ⟨3, 4⟩

/-- The pure-WKB encoding of the point (1.0, 2.0), big-endian: flag 0, type code 1,
then the bit patterns 0x3FF0000000000000 and 0x4000000000000000. -/
def samplePointBigEndian : List UInt8 :=
  [0, 0, 0, 0, 1, 63, 240, 0, 0, 0, 0, 0, 0, 64, 0, 0, 0, 0, 0, 0, 0]

/-- A little-endian buffer of Point length whose header declares type code 2. -/
def sampleLineStringTyped : List UInt8 :=
  [1, 2, 0, 0, 0, 0, 0, 0, 0, 0, 0, 240, 63, 0, 0, 0, 0, 0, 0, 0, 64]

/-- A LineString-typed little-endian buffer of Segment length, 41 bytes, whose
point count field is 3. -/
def sampleSegmentCountThree : List UInt8 :=
  [1, 2, 0, 0, 0, 3, 0, 0, 0] ++ List.replicate 32 0

/-- A complete little-endian MultiPoint buffer of five elements of which the
third declares type code 2. -/
def sampleMultiPointThirdLineString : List UInt8 :=
  [1, 4, 0, 0, 0, 5, 0, 0, 0] ++ fiveElementsThirdLineString

/-- A complete big-endian Segment buffer, 41 bytes: the segment from (1.0, 2.0)
to (2.0, 1.0). -/
def sampleSegmentBigEndian : List UInt8 :=
  [0, 0, 0, 0, 2, 0, 0, 0, 2] ++
    putScalar 8 4607182418800017408 false ++ putScalar 8 4611686018427387904 false ++
    putScalar 8 4611686018427387904 false ++ putScalar 8 4607182418800017408 false

/-- A stand-in for the package `internal/wkb` whose `ReadFloat64` decodes nothing
and returns the length of the slice it is handed.  Run on it, a decoder of
`planar/wkb.go` yields points whose x and y record how many bytes the decoder
passed to the reader for the x read and for the y read. -/
def lengthProbe : Wkb where
  ReadFloat64 := fun data _ => some data.length
  ReadPoint := specReadPoint
  ValidatePoint := specValidatePoint
  ValidateSegment := specValidateSegment
  ValidateMultiPoint := specValidateMultiPoint
  ValidateLineString := specValidateLineString

/-! ## The package `project`: `project/helpers.go`

The types of the packages `geo` and `planar` are declared outside
`project/helpers.go`; their shape is read off the conversions and index
expressions of that file.  A slice is a list, the nil slice the empty list. -/

/-- Modelled from the spec: the type `geo.Point`, declared outside the embedded
sources; a coordinate is a pair of 64-bit floating-point values (section 3). -/
structure geo.Point where
  lng : Float64
  lat : Float64
  deriving DecidableEq, Repr

/-- The type `geo.MultiPoint`, `[]geo.Point`. -/
abbrev geo.MultiPoint := List geo.Point

/-- The type `geo.LineString`, convertible to and from `geo.MultiPoint`. -/
abbrev geo.LineString := List geo.Point

/-- The type `geo.MultiLineString`, `[]geo.LineString`. -/
abbrev geo.MultiLineString := List geo.LineString

/-- The type `geo.Ring`, convertible to and from `geo.LineString`. -/
abbrev geo.Ring := geo.LineString

/-- The type `geo.Polygon`, `[]geo.Ring`. -/
abbrev geo.Polygon := List geo.Ring

/-- The type `geo.MultiPolygon`, `[]geo.Polygon`. -/
abbrev geo.MultiPolygon := List geo.Polygon

/-- The type `geo.Bound`, indexed by 0 and 1 to a `geo.Point`. -/
structure geo.Bound where
  at0 : geo.Point
  at1 : geo.Point
  deriving DecidableEq, Repr

/-- The interface `geo.Geometry` by dynamic type: the nine types of the type
switch of `ToPlanar`, and `unsupported` for the nil interface value and for a
value of any other dynamic type.  `collection` is `geo.Collection`,
`[]geo.Geometry`. -/
inductive geo.Geometry where
  | point (g : geo.Point)
  | multiPoint (g : geo.MultiPoint)
  | lineString (g : geo.LineString)
  | multiLineString (g : geo.MultiLineString)
  | ring (g : geo.Ring)
  | polygon (g : geo.Polygon)
  | multiPolygon (g : geo.MultiPolygon)
  | collection (g : List geo.Geometry)
  | bound (g : geo.Bound)
  | unsupported
  deriving Repr

/-- The type `geo.Collection`, `[]geo.Geometry`. -/
abbrev geo.Collection := List geo.Geometry

/-- The type `planar.MultiLineString`, `[]planar.LineString`. -/
abbrev MultiLineString := List LineString

/-- The type `planar.Ring`, convertible to and from `planar.LineString`. -/
abbrev Ring := LineString

/-- The type `planar.Polygon`, `[]planar.Ring`. -/
abbrev Polygon := List Ring

/-- The type `planar.MultiPolygon`, `[]planar.Polygon`. -/
abbrev MultiPolygon := List Polygon

/-- The type `planar.Bound`, indexed by 0 and 1 to a `planar.Point`. -/
structure Bound where
  at0 : Point
  at1 : Point
  deriving DecidableEq, Repr

/-- The interface `planar.Geometry` by dynamic type: the nine types of the type
switch of `ToGeo`, and `unsupported` for the nil interface value and for a value
of any other dynamic type.  `collection` is `planar.Collection`,
`[]planar.Geometry`. -/
inductive Geometry where
  | point (g : Point)
  | multiPoint (g : MultiPoint)
  | lineString (g : LineString)
  | multiLineString (g : MultiLineString)
  | ring (g : Ring)
  | polygon (g : Polygon)
  | multiPolygon (g : MultiPolygon)
  | collection (g : List Geometry)
  | bound (g : Bound)
  | unsupported
  deriving Repr

/-- The type `planar.Collection`, `[]planar.Geometry`. -/
abbrev Collection := List Geometry

/-- The type `project.Projection`, declared outside `project/helpers.go`: the pair
of point maps that the helpers call as `proj.ToPlanar` and `proj.ToGeo`. -/
structure project.Projection where
  ToPlanar : geo.Point → Point
  ToGeo : Point → geo.Point

/-- The function `planar.NewBoundFromPoints`, declared outside
`project/helpers.go` and taken as a parameter. -/
structure project.PlanarPkg where
  NewBoundFromPoints : Point → Point → Bound

/-- The function `geo.NewBoundFromPoints`, declared outside `project/helpers.go`
and taken as a parameter. -/
structure project.GeoPkg where
  NewBoundFromPoints : geo.Point → geo.Point → geo.Bound

namespace project

/-- The loop `for i := range xs { n[i] = f(xs[i]) }`: the elements of `xs` still
to visit, the loop variable `i` and the slice `n` written so far. -/
def forRange {α β : Type} (f : α → β) : List α → Nat → List β → List β
  | [], _, n => n
  | x :: rest, i, n => forRange f rest (i + 1) (n.set i (f x))

/-- The function `MultiPointToPlanar`. -/
def MultiPointToPlanar (mp : geo.MultiPoint) (proj : Projection) : MultiPoint :=
  forRange proj.ToPlanar mp 0 (List.replicate mp.length Point.zero)

/-- The function `MultiPointToGeo`. -/
def MultiPointToGeo (mp : MultiPoint) (proj : Projection) : geo.MultiPoint :=
  forRange proj.ToGeo mp 0 (List.replicate mp.length ⟨0, 0⟩)

/-- The function `LineStringToPlanar`. -/
def LineStringToPlanar (ls : geo.LineString) (proj : Projection) : LineString :=
  MultiPointToPlanar ls proj

/-- The function `LineStringToGeo`. -/
def LineStringToGeo (ls : LineString) (proj : Projection) : geo.LineString :=
  MultiPointToGeo ls proj

/-- The function `MultiLineStringToPlanar`. -/
def MultiLineStringToPlanar (mls : geo.MultiLineString) (proj : Projection) :
    MultiLineString :=
  forRange (fun ls => LineStringToPlanar ls proj) mls 0 (List.replicate mls.length [])

/-- The function `MultiLineStringToGeo`. -/
def MultiLineStringToGeo (mls : MultiLineString) (proj : Projection) :
    geo.MultiLineString :=
  forRange (fun ls => LineStringToGeo ls proj) mls 0 (List.replicate mls.length [])

/-- The function `RingToPlanar`. -/
def RingToPlanar (r : geo.Ring) (proj : Projection) : Ring :=
  LineStringToPlanar r proj

/-- The function `RingToGeo`. -/
def RingToGeo (r : Ring) (proj : Projection) : geo.Ring :=
  LineStringToGeo r proj

/-- The function `PolygonToPlanar`. -/
def PolygonToPlanar (p : geo.Polygon) (proj : Projection) : Polygon :=
  forRange (fun r => RingToPlanar r proj) p 0 (List.replicate p.length [])

/-- The function `PolygonToGeo`. -/
def PolygonToGeo (p : Polygon) (proj : Projection) : geo.Polygon :=
  forRange (fun r => RingToGeo r proj) p 0 (List.replicate p.length [])

/-- The function `MultiPolygonToPlanar`. -/
def MultiPolygonToPlanar (mp : geo.MultiPolygon) (proj : Projection) : MultiPolygon :=
  forRange (fun p => PolygonToPlanar p proj) mp 0 (List.replicate mp.length [])

/-- The function `MultiPolygonToGeo`. -/
def MultiPolygonToGeo (mp : MultiPolygon) (proj : Projection) : geo.MultiPolygon :=
  forRange (fun p => PolygonToGeo p proj) mp 0 (List.replicate mp.length [])

/-- The function `BoundToPlanar`. -/
def BoundToPlanar (planarPkg : PlanarPkg) (bound : geo.Bound) (proj : Projection) : Bound :=
  planarPkg.NewBoundFromPoints (proj.ToPlanar bound.at0) (proj.ToPlanar bound.at1)

/-- The function `BoundToGeo`. -/
def BoundToGeo (geoPkg : GeoPkg) (bound : Bound) (proj : Projection) : geo.Bound :=
  geoPkg.NewBoundFromPoints (proj.ToGeo bound.at0) (proj.ToGeo bound.at1)

mutual
/-- The function `ToPlanar`; `none` is the panic "geometry type not supported". -/
def ToPlanar (planarPkg : PlanarPkg) : geo.Geometry → Projection → Option Geometry
  | .point g, proj => some (.point (proj.ToPlanar g))
  | .multiPoint g, proj => some (.multiPoint (MultiPointToPlanar g proj))
  | .lineString g, proj => some (.lineString (LineStringToPlanar g proj))
  | .multiLineString g, proj => some (.multiLineString (MultiLineStringToPlanar g proj))
  | .ring g, proj => some (.ring (RingToPlanar g proj))
  | .polygon g, proj => some (.polygon (PolygonToPlanar g proj))
  | .multiPolygon g, proj => some (.multiPolygon (MultiPolygonToPlanar g proj))
  | .collection g, proj =>
    match CollectionToPlanar.loop planarPkg g proj 0
        (List.replicate g.length Geometry.unsupported) with
    | some n => some (.collection n)
    | none => none
  | .bound g, proj => some (.bound (BoundToPlanar planarPkg g proj))
  | .unsupported, _ => none
/-- The loop of `CollectionToPlanar`: the elements still to visit, the loop
variable `i` and the slice `n` written so far; a panic of `ToPlanar` ends it. -/
def CollectionToPlanar.loop (planarPkg : PlanarPkg) :
    List geo.Geometry → Projection → Nat → List Geometry → Option (List Geometry)
  | [], _, _, n => some n
  | g :: rest, proj, i, n =>
    match ToPlanar planarPkg g proj with
    | none => none
    | some pg => CollectionToPlanar.loop planarPkg rest proj (i + 1) (n.set i pg)
end

/-- The function `CollectionToPlanar`; `none` is a panic of `ToPlanar` on an
element. -/
def CollectionToPlanar (planarPkg : PlanarPkg) (c : geo.Collection) (proj : Projection) :
    Option Collection :=
  CollectionToPlanar.loop planarPkg c proj 0 (List.replicate c.length Geometry.unsupported)

mutual
/-- The function `ToGeo`; `none` is the panic "geometry type not supported". -/
def ToGeo (geoPkg : GeoPkg) : Geometry → Projection → Option geo.Geometry
  | .point g, proj => some (.point (proj.ToGeo g))
  | .multiPoint g, proj => some (.multiPoint (MultiPointToGeo g proj))
  | .lineString g, proj => some (.lineString (LineStringToGeo g proj))
  | .multiLineString g, proj => some (.multiLineString (MultiLineStringToGeo g proj))
  | .ring g, proj => some (.ring (RingToGeo g proj))
  | .polygon g, proj => some (.polygon (PolygonToGeo g proj))
  | .multiPolygon g, proj => some (.multiPolygon (MultiPolygonToGeo g proj))
  | .collection g, proj =>
    match CollectionToGeo.loop geoPkg g proj 0
        (List.replicate g.length geo.Geometry.unsupported) with
    | some n => some (.collection n)
    | none => none
  | .bound g, proj => some (.bound (BoundToGeo geoPkg g proj))
  | .unsupported, _ => none
/-- The loop of `CollectionToGeo`: the elements still to visit, the loop variable
`i` and the slice `n` written so far; a panic of `ToGeo` ends it. -/
def CollectionToGeo.loop (geoPkg : GeoPkg) :
    List Geometry → Projection → Nat → List geo.Geometry → Option (List geo.Geometry)
  | [], _, _, n => some n
  | g :: rest, proj, i, n =>
    match ToGeo geoPkg g proj with
    | none => none
    | some gg => CollectionToGeo.loop geoPkg rest proj (i + 1) (n.set i gg)
end

/-- The function `CollectionToGeo`; `none` is a panic of `ToGeo` on an element. -/
def CollectionToGeo (geoPkg : GeoPkg) (c : Collection) (proj : Projection) :
    Option geo.Collection :=
  CollectionToGeo.loop geoPkg c proj 0 (List.replicate c.length geo.Geometry.unsupported)

end project
/-- The kinds of geometry a type switch of `project/helpers.go` tells apart. -/
inductive Kind where
  | point
  | multiPoint
  | lineString
  | multiLineString
  | ring
  | polygon
  | multiPolygon
  | collection
  | bound
  | unsupported
  deriving DecidableEq, Repr

/-- The kind of a geo geometry. -/
def geo.Geometry.kind : geo.Geometry → Kind
  | .point _ => .point
  | .multiPoint _ => .multiPoint
  | .lineString _ => .lineString
  | .multiLineString _ => .multiLineString
  | .ring _ => .ring
  | .polygon _ => .polygon
  | .multiPolygon _ => .multiPolygon
  | .collection _ => .collection
  | .bound _ => .bound
  | .unsupported => .unsupported

/-- The kind of a planar geometry. -/
def Geometry.kind : Geometry → Kind
  | .point _ => .point
  | .multiPoint _ => .multiPoint
  | .lineString _ => .lineString
  | .multiLineString _ => .multiLineString
  | .ring _ => .ring
  | .polygon _ => .polygon
  | .multiPolygon _ => .multiPolygon
  | .collection _ => .collection
  | .bound _ => .bound
  | .unsupported => .unsupported

mutual
/-- A geo geometry built from the nine supported kinds only, collections nested
to any depth included. -/
def geo.Geometry.isSupported : geo.Geometry → Bool
  | .collection c => geo.Geometry.allSupported c
  | .unsupported => false
  | _ => true
/-- Every geometry of the list is built from the nine supported kinds only. -/
def geo.Geometry.allSupported : List geo.Geometry → Bool
  | [] => true
  | g :: rest => geo.Geometry.isSupported g && geo.Geometry.allSupported rest
end

mutual
/-- A planar geometry built from the nine supported kinds only, collections
nested to any depth included. -/
def Geometry.isSupported : Geometry → Bool
  | .collection c => Geometry.allSupported c
  | .unsupported => false
  | _ => true
/-- Every geometry of the list is built from the nine supported kinds only. -/
def Geometry.allSupported : List Geometry → Bool
  | [] => true
  | g :: rest => Geometry.isSupported g && Geometry.allSupported rest
end

/-- A projection that swaps the two coordinates, in both directions. -/
def sampleProjection : project.Projection where
  ToPlanar := fun g => ⟨g.lat, g.lng⟩
  ToGeo := fun p => ⟨p.y, p.x⟩

/-- A bound constructor that keeps the two points as they are. -/
def samplePlanarPkg : project.PlanarPkg where
  NewBoundFromPoints := fun a b => ⟨a, b⟩

/-- A bound constructor that keeps the two points as they are. -/
def sampleGeoPkg : project.GeoPkg where
  NewBoundFromPoints := fun a b => ⟨a, b⟩

/-- A geo collection that holds a point, a nested collection and a polygon. -/
def sampleGeoCollection : geo.Geometry :=
  .collection [.point ⟨1, 2⟩,
    .collection [.multiPoint [⟨3, 4⟩], .bound ⟨⟨5, 6⟩, ⟨7, 8⟩⟩],
    .polygon [[⟨1, 1⟩, ⟨2, 1⟩, ⟨1, 1⟩]]]

/-- A planar collection that holds a point, a nested collection and a polygon. -/
def samplePlanarCollection : Geometry :=
  .collection [.point ⟨2, 1⟩,
    .collection [.multiPoint [⟨4, 3⟩], .bound ⟨⟨6, 5⟩, ⟨8, 7⟩⟩],
    .polygon [[⟨1, 1⟩, ⟨1, 2⟩, ⟨1, 1⟩]]]

/-! ## Slices and scalars -/

theorem littleEndianNat_littleEndianBytes (width v : Nat) :
    littleEndianNat (littleEndianBytes width v) = v % 256 ^ width := by
  induction width generalizing v with
  | zero => simp [littleEndianBytes, littleEndianNat, Nat.mod_one]
  | succ w ih =>
    have h := ih (v / 256)
    simp only [littleEndianNat] at h
    simp only [littleEndianBytes, littleEndianNat, List.foldr_cons, h]
    rw [pow_succ', Nat.mod_mul]
    rfl

theorem bigEndianNat_reverse (bs : List UInt8) :
    bigEndianNat bs.reverse = littleEndianNat bs := by
  simp [bigEndianNat, littleEndianNat, List.foldl_reverse]

theorem length_littleEndianBytes (width v : Nat) :
    (littleEndianBytes width v).length = width := by
  induction width generalizing v with
  | zero => rfl
  | succ w ih => simp [littleEndianBytes, ih]

theorem length_putScalar (width v : Nat) (le : Bool) :
    (putScalar width v le).length = width := by
  cases le <;> simp [putScalar, length_littleEndianBytes]

/-- Reading back, in the same byte order, a scalar that sits between two runs of
bytes. -/
theorem scalarAt_putScalar (A C : List UInt8) (off width v : Nat) (le : Bool)
    (hA : A.length = off) :
    scalarAt (A ++ putScalar width v le ++ C) off width le = v % 256 ^ width := by
  have h1 : ((A ++ putScalar width v le ++ C).drop off).take width = putScalar width v le := by
    rw [List.append_assoc, List.drop_left' hA, List.take_left' (length_putScalar width v le)]
  unfold scalarAt
  rw [h1]
  cases le
  · simp [putScalar, bigEndianNat_reverse, littleEndianNat_littleEndianBytes]
  · simp [putScalar, littleEndianNat_littleEndianBytes]

/-! ## The flat decoders: LineString and Segment -/

theorem readWKBPoint_specWkb (d : List UInt8) (le : Bool) (h : 16 ≤ d.length) :
    readWKBPoint specWkb d le = some ⟨scalarAt d 0 8 le, scalarAt d 8 8 le⟩ := by
  have h8 : 8 ≤ d.length := by omega
  have hm : min 8 d.length = 8 := by omega
  have e0 : scalarAt (d.take 8) 0 8 le = scalarAt d 0 8 le := by
    simp [scalarAt, List.take_take]
  have e1 : scalarAt (d.drop 8) 0 8 le = scalarAt d 8 8 le := by
    simp [scalarAt]
  have h88 : 8 ≤ d.length - 8 := by omega
  simp [readWKBPoint, sliceTo, sliceFrom, specWkb, specReadFloat64, h8, hm, e0, e1, h88]

theorem unWKBLineString_loop_isSome (wkb : Wkb) (data : List UInt8) (le : Bool) :
    ∀ (todo i : Nat) (points : List Point),
      (∀ j, i ≤ j → j < i + todo →
        16 * j ≤ data.length ∧ (readWKBPoint wkb (data.drop (16 * j)) le).isSome) →
      (unWKBLineString.loop wkb data le todo i points).isSome := by
  intro todo
  induction todo with
  | zero => intro i points _; simp [unWKBLineString.loop]
  | succ t ih =>
    intro i points h
    obtain ⟨hlen, hp⟩ := h i (Nat.le_refl i) (by omega)
    obtain ⟨p, hp⟩ := Option.isSome_iff_exists.mp hp
    simp only [unWKBLineString.loop, sliceFrom, hlen, if_true, hp]
    exact ih (i + 1) _ (fun j h1 h2 => h j (by omega) (by omega))

theorem unWKBLineString_loop_inv (wkb : Wkb) (data : List UInt8) (le : Bool) :
    ∀ (todo i : Nat) (points res : List Point),
      unWKBLineString.loop wkb data le todo i points = some res →
      i + todo ≤ points.length →
      res.length = points.length ∧ (∀ j, j < i → res[j]? = points[j]?) ∧
      ∀ j, i ≤ j → j < i + todo →
        16 * j ≤ data.length ∧
        ∃ p, readWKBPoint wkb (data.drop (16 * j)) le = some p ∧ res[j]? = some p := by
  intro todo
  induction todo with
  | zero =>
    intro i points res h _
    simp only [unWKBLineString.loop, Option.some.injEq] at h
    subst h
    exact ⟨rfl, fun _ _ => rfl, fun j h1 h2 => absurd h2 (by omega)⟩
  | succ t ih =>
    intro i points res h hlen
    simp only [unWKBLineString.loop, sliceFrom] at h
    by_cases hs : 16 * i ≤ data.length
    · simp only [hs, if_true] at h
      cases hp : readWKBPoint wkb (data.drop (16 * i)) le with
      | none => simp [hp] at h
      | some p =>
        simp only [hp] at h
        obtain ⟨h1, h2, h3⟩ := ih (i + 1) _ res h (by simp; omega)
        refine ⟨by simpa using h1, ?_, ?_⟩
        · intro j hj
          rw [h2 j (by omega), List.getElem?_set_ne (by omega)]
        · intro j hij hj
          by_cases hji : j = i
          · subst hji
            refine ⟨hs, p, hp, ?_⟩
            rw [h2 j (by omega), List.getElem?_set_self (by omega)]
          · exact h3 j (by omega) (by omega)
    · simp [hs] at h

/-- C1: for every count n, every payload of exactly 16 n bytes and either
endianness flag, `unWKBLineString` returns no error and exactly n points in input
order; point i has x read from payload bytes 16 i to 16 i + 7 and y read from
payload bytes 16 i + 8 to 16 i + 15, both with the given flag, and no per-point
header is skipped. -/
theorem unWKBLineString_flat (n : Nat) (data : List UInt8) (littleEndian : Bool)
    (hlen : data.length = 16 * n) :
    ∃ points, unWKBLineString specWkb data littleEndian (n : Int) = some (points, none) ∧
      points.length = n ∧
      ∀ i, i < n → ∃ x y,
        specWkb.ReadFloat64 ((data.drop (16 * i)).take 8) littleEndian = some x ∧
        specWkb.ReadFloat64 ((data.drop (16 * i + 8)).take 8) littleEndian = some y ∧
        points[i]? = some ⟨x, y⟩ := by
  have hread : ∀ j, j < n → readWKBPoint specWkb (data.drop (16 * j)) littleEndian =
      some ⟨scalarAt data (16 * j) 8 littleEndian, scalarAt data (16 * j + 8) 8 littleEndian⟩ := by
    intro j hj
    rw [readWKBPoint_specWkb _ _ (by simp; omega)]
    simp [scalarAt, Nat.add_comm]
  have hsome := unWKBLineString_loop_isSome specWkb data littleEndian n 0
    (List.replicate n Point.zero)
    (fun j _ hj => ⟨by omega, by rw [hread j (by omega)]; rfl⟩)
  obtain ⟨res, hres⟩ := Option.isSome_iff_exists.mp hsome
  obtain ⟨h1, _, h3⟩ := unWKBLineString_loop_inv specWkb data littleEndian n 0 _ res hres
    (by simp)
  refine ⟨res, ?_, by simpa using h1, ?_⟩
  · simp [unWKBLineString, hres]
  · intro i hi
    obtain ⟨_, p, hp, hget⟩ := h3 i (Nat.zero_le i) (by omega)
    rw [hread i hi] at hp
    refine ⟨scalarAt data (16 * i) 8 littleEndian, scalarAt data (16 * i + 8) 8 littleEndian,
      ?_, ?_, ?_⟩
    rotate_left 2
    · rw [hget, ← hp]
    · have : 8 ≤ ((data.drop (16 * i)).take 8).length := by simp; omega
      simp [specWkb, specReadFloat64, scalarAt, List.take_take]; omega
    · have : 8 ≤ ((data.drop (16 * i + 8)).take 8).length := by simp; omega
      simp [specWkb, specReadFloat64, scalarAt, List.take_take]; omega

/-- Witness of C1: two points, big-endian. -/
theorem unWKBLineString_flat_witness :
    ∃ points, unWKBLineString specWkb
        [0,0,0,0,0,0,0,1, 0,0,0,0,0,0,0,2, 0,0,0,0,0,0,1,0, 0,0,0,0,0,0,0,4] false (2 : Nat)
          = some (points, none) ∧
      points.length = 2 ∧
      ∀ i, i < 2 → ∃ x y,
        specWkb.ReadFloat64 ((List.drop (16 * i)
          [0,0,0,0,0,0,0,1, 0,0,0,0,0,0,0,2, 0,0,0,0,0,0,1,0, 0,0,0,0,0,0,0,4]).take 8) false
            = some x ∧
        specWkb.ReadFloat64 ((List.drop (16 * i + 8)
          [0,0,0,0,0,0,0,1, 0,0,0,0,0,0,0,2, 0,0,0,0,0,0,1,0, 0,0,0,0,0,0,0,4]).take 8) false
            = some y ∧
        points[i]? = some ⟨x, y⟩ :=
  unWKBLineString_flat 2 _ false (by decide)

/-- C4: for every 32-byte payload and either endianness flag, `unWKBSegment`
returns no error and the segment whose first point is read from bytes 0 to 7 and
8 to 15 and whose second point is read from bytes 16 to 23 and 24 to 31, all
four reads with the same flag and no sub-header between the points. -/
theorem unWKBSegment_flat (data : List UInt8) (littleEndian : Bool)
    (hlen : data.length = 32) :
    ∃ x1 y1 x2 y2,
      specWkb.ReadFloat64 (data.take 8) littleEndian = some x1 ∧
      specWkb.ReadFloat64 ((data.drop 8).take 8) littleEndian = some y1 ∧
      specWkb.ReadFloat64 ((data.drop 16).take 8) littleEndian = some x2 ∧
      specWkb.ReadFloat64 ((data.drop 24).take 8) littleEndian = some y2 ∧
      unWKBSegment specWkb data littleEndian = some (⟨⟨x1, y1⟩, ⟨x2, y2⟩⟩, none) := by
  refine ⟨scalarAt data 0 8 littleEndian, scalarAt data 8 8 littleEndian,
    scalarAt data 16 8 littleEndian, scalarAt data 24 8 littleEndian, ?_, ?_, ?_, ?_, ?_⟩
  · simp [specWkb, specReadFloat64, scalarAt, List.take_take]; omega
  · simp [specWkb, specReadFloat64, scalarAt, List.take_take]; omega
  · simp [specWkb, specReadFloat64, scalarAt, List.take_take]; omega
  · simp [specWkb, specReadFloat64, scalarAt, List.take_take]; omega
  · have h16 : 16 ≤ data.length := by omega
    have ha := readWKBPoint_specWkb (data.take 16) littleEndian (by simp; omega)
    have hb := readWKBPoint_specWkb (data.drop 16) littleEndian (by simp; omega)
    have e1 : scalarAt (data.take 16) 0 8 littleEndian = scalarAt data 0 8 littleEndian := by
      simp [scalarAt, List.take_take]
    have e2 : scalarAt (data.take 16) 8 8 littleEndian = scalarAt data 8 8 littleEndian := by
      simp [scalarAt, List.drop_take, List.take_take]
    have e3 : scalarAt (data.drop 16) 0 8 littleEndian = scalarAt data 16 8 littleEndian := by
      simp [scalarAt]
    have e4 : scalarAt (data.drop 16) 8 8 littleEndian = scalarAt data 24 8 littleEndian := by
      simp [scalarAt]
    rw [e1, e2] at ha
    rw [e3, e4] at hb
    simp [unWKBSegment, sliceTo, sliceFrom, h16, ha, hb]

/-- Witness of C4: the segment from (1, 2) to (3, 4), little-endian. -/
theorem unWKBSegment_flat_witness :
    ∃ x1 y1 x2 y2,
      specWkb.ReadFloat64 (List.take 8
        [1,0,0,0,0,0,0,0, 2,0,0,0,0,0,0,0, 3,0,0,0,0,0,0,0, 4,0,0,0,0,0,0,0]) true = some x1 ∧
      specWkb.ReadFloat64 ((List.drop 8
        [1,0,0,0,0,0,0,0, 2,0,0,0,0,0,0,0, 3,0,0,0,0,0,0,0, 4,0,0,0,0,0,0,0]).take 8) true
          = some y1 ∧
      specWkb.ReadFloat64 ((List.drop 16
        [1,0,0,0,0,0,0,0, 2,0,0,0,0,0,0,0, 3,0,0,0,0,0,0,0, 4,0,0,0,0,0,0,0]).take 8) true
          = some x2 ∧
      specWkb.ReadFloat64 ((List.drop 24
        [1,0,0,0,0,0,0,0, 2,0,0,0,0,0,0,0, 3,0,0,0,0,0,0,0, 4,0,0,0,0,0,0,0]).take 8) true
          = some y2 ∧
      unWKBSegment specWkb
        [1,0,0,0,0,0,0,0, 2,0,0,0,0,0,0,0, 3,0,0,0,0,0,0,0, 4,0,0,0,0,0,0,0] true
          = some (⟨⟨x1, y1⟩, ⟨x2, y2⟩⟩, none) :=
  unWKBSegment_flat _ true (by decide)

/-! ## The MultiPoint decoder -/

theorem unWKBMultiPoint_loop_isSome (wkb : Wkb) (data : List UInt8) :
    ∀ (todo i : Nat) (points : List Point),
      (∀ j, i ≤ j → j < i + todo →
        21 * j ≤ data.length ∧ (wkb.ReadPoint (data.drop (21 * j))).2.2 = none) →
      ∃ res, unWKBMultiPoint.loop wkb data todo i points = some (res, none) := by
  intro todo
  induction todo with
  | zero => intro i points _; exact ⟨points, rfl⟩
  | succ t ih =>
    intro i points h
    obtain ⟨hlen, hp⟩ := h i (Nat.le_refl i) (by omega)
    rcases hrp : wkb.ReadPoint (data.drop (21 * i)) with ⟨x, y, e⟩
    rw [hrp] at hp
    simp only at hp
    subst hp
    simp only [unWKBMultiPoint.loop, sliceFrom, hlen, if_true, hrp]
    exact ih (i + 1) _ (fun j h1 h2 => h j (by omega) (by omega))

theorem unWKBMultiPoint_loop_inv (wkb : Wkb) (data : List UInt8) :
    ∀ (todo i : Nat) (points res : List Point),
      unWKBMultiPoint.loop wkb data todo i points = some (res, none) →
      i + todo ≤ points.length →
      res.length = points.length ∧ (∀ j, j < i → res[j]? = points[j]?) ∧
      ∀ j, i ≤ j → j < i + todo →
        21 * j ≤ data.length ∧
        ∃ x y, wkb.ReadPoint (data.drop (21 * j)) = (x, y, none) ∧ res[j]? = some ⟨x, y⟩ := by
  intro todo
  induction todo with
  | zero =>
    intro i points res h _
    simp only [unWKBMultiPoint.loop, Option.some.injEq, Prod.mk.injEq, and_true] at h
    subst h
    exact ⟨rfl, fun _ _ => rfl, fun j h1 h2 => absurd h2 (by omega)⟩
  | succ t ih =>
    intro i points res h hlen
    simp only [unWKBMultiPoint.loop, sliceFrom] at h
    by_cases hs : 21 * i ≤ data.length
    · simp only [hs, if_true] at h
      rcases hrp : wkb.ReadPoint (data.drop (21 * i)) with ⟨x, y, e⟩
      cases e with
      | some err => simp [hrp] at h
      | none =>
        simp only [hrp] at h
        obtain ⟨h1, h2, h3⟩ := ih (i + 1) _ res h (by simp; omega)
        refine ⟨by simpa using h1, ?_, ?_⟩
        · intro j hj
          rw [h2 j (by omega), List.getElem?_set_ne (by omega)]
        · intro j hij hj
          by_cases hji : j = i
          · subst hji
            refine ⟨hs, x, y, hrp, ?_⟩
            rw [h2 j (by omega), List.getElem?_set_self (by omega)]
          · exact h3 j (by omega) (by omega)
    · simp [hs] at h

theorem unWKBMultiPoint_loop_fail (wkb : Wkb) (data : List UInt8) (k : Nat) (e : Error)
    (hlen : 21 * k ≤ data.length)
    (hfail : (wkb.ReadPoint (data.drop (21 * k))).2.2 = some e) :
    ∀ (todo i : Nat) (points : List Point), i ≤ k → k < i + todo →
      (∀ j, i ≤ j → j < k → (wkb.ReadPoint (data.drop (21 * j))).2.2 = none) →
      unWKBMultiPoint.loop wkb data todo i points = some ([], some e) := by
  intro todo
  induction todo with
  | zero => intro i points h1 h2; omega
  | succ t ih =>
    intro i points h1 h2 hok
    have hs : 21 * i ≤ data.length := by omega
    rcases hrp : wkb.ReadPoint (data.drop (21 * i)) with ⟨x, y, err⟩
    by_cases hik : i = k
    · subst hik
      rw [hrp] at hfail
      simp only at hfail
      subst hfail
      simp [unWKBMultiPoint.loop, sliceFrom, hs, hrp]
    · have hnone := hok i (Nat.le_refl i) (by omega)
      rw [hrp] at hnone
      simp only at hnone
      subst hnone
      simp only [unWKBMultiPoint.loop, sliceFrom, hs, if_true, hrp]
      exact ih (i + 1) _ (by omega) (by omega) (fun j h3 h4 => hok j (by omega) h4)

/-- C2: for every payload and every count n that the 4-byte count field of a
MultiPoint header can hold (n below 2 ^ 32, a length `make` accepts), when
`ReadPoint` fails with error e on the element that starts at offset 21 k of the
payload, for some k below n, after the elements 0 to k - 1 decoded successfully,
`unWKBMultiPoint` returns e together with the nil point sequence, so none of the
decoded elements is returned.  This holds whatever the functions of the package
`internal/wkb` do. -/
theorem unWKBMultiPoint_element_failure (wkb : Wkb) (data : List UInt8)
    (littleEndian : Bool) (n k : Nat) (e : Error)
    (hn : n < 2 ^ 32) (hk : k < n) (hlen : 21 * k ≤ data.length)
    (hok : ∀ j, j < k → (wkb.ReadPoint (data.drop (21 * j))).2.2 = none)
    (hfail : (wkb.ReadPoint (data.drop (21 * k))).2.2 = some e) :
    unWKBMultiPoint wkb data littleEndian (n : Int) = some ([], some e) := by
  have _hmake : (n : Int) < 2 ^ 32 := by exact_mod_cast hn
  have h := unWKBMultiPoint_loop_fail wkb data k e hlen hfail n 0
    (List.replicate n Point.zero) (Nat.zero_le k) (by omega) (fun j _ hj => hok j hj)
  simp [unWKBMultiPoint, h]

/-- Witness of C2: element 3 of 5 declares type code 2; the decode fails with
`ErrIncorrectGeometry` and exposes no element. -/
theorem unWKBMultiPoint_element_failure_witness :
    unWKBMultiPoint specWkb fiveElementsThirdLineString true ((5 : Nat) : Int)
      = some ([], some .ErrIncorrectGeometry) :=
  unWKBMultiPoint_element_failure specWkb fiveElementsThirdLineString true 5 2
    .ErrIncorrectGeometry (by decide) (by decide) (by decide) (by decide) (by decide)

theorem scalarAt_take (d : List UInt8) (m off width : Nat) (le : Bool)
    (h : off + width ≤ m) :
    scalarAt (d.take m) off width le = scalarAt d off width le := by
  have hm : min width (m - off) = width := by omega
  simp [scalarAt, List.drop_take, List.take_take, hm]

/-- The model of `ReadPoint` looks at the leading 21 bytes only. -/
theorem specReadPoint_take (d : List UInt8) (h : 21 ≤ d.length) :
    specReadPoint (d.take 21) = specReadPoint d := by
  have hl : (d.take 21).length = 21 := by simp; omega
  have hh : (d.take 21).head? = d.head? := by
    cases d with
    | nil => simp at h
    | cons a t => simp
  simp only [specReadPoint, specValidateHeader, hl, hh, scalarAt_take d 21 1 4 _ (by omega),
    scalarAt_take d 21 5 8 _ (by omega), scalarAt_take d 21 13 8 _ (by omega)]
  have h1 : ¬ d.length < 21 := by omega
  have h2 : ¬ d.length < 5 := by omega
  simp [h1, h2]

/-- The Header Validator of the model, by cases on the flag byte. -/
theorem specValidateHeader_cons (expected : Nat) (a : UInt8) (t : List UInt8)
    (h : 4 ≤ t.length) :
    specValidateHeader expected (a :: t) =
      if a = 0 then
        (if scalarAt (a :: t) 1 4 false = expected then .ok false
         else .error .ErrIncorrectGeometry)
      else if a = 1 then
        (if scalarAt (a :: t) 1 4 true = expected then .ok true
         else .error .ErrIncorrectGeometry)
      else .error .ErrNotWKB := by
  have h5 : ¬ (a :: t).length < 5 := by simp; omega
  unfold specValidateHeader
  simp only [h5, if_false, List.head?_cons]
  split
  · rename_i heq
    have := Option.some.inj heq
    subst this
    simp
  · rename_i heq
    have := Option.some.inj heq
    subst this
    simp
  · rename_i h0 h1
    have h0 : ¬ a = 0 := fun e => h0 (by rw [e])
    have h1 : ¬ a = 1 := fun e => h1 (by rw [e])
    simp [h0, h1]

/-- A successful `ReadPoint` of the model found a defined endianness flag and
type code 1, and decoded both coordinates in the declared byte order. -/
theorem specReadPoint_ok (d : List UInt8) (x y : Float64)
    (h : specReadPoint d = (x, y, none)) :
    21 ≤ d.length ∧ ∃ own : Bool, d.head? = some (endianFlag own) ∧
      scalarAt d 1 4 own = 1 ∧ x = scalarAt d 5 8 own ∧ y = scalarAt d 13 8 own := by
  unfold specReadPoint at h
  by_cases hl : d.length < 21
  · simp [hl] at h
  · simp only [hl, if_false] at h
    refine ⟨by omega, ?_⟩
    cases d with
    | nil => simp at hl
    | cons a t =>
      rw [specValidateHeader_cons 1 a t (by simp at hl; omega)] at h
      by_cases h0 : a = 0
      · subst h0
        refine ⟨false, rfl, ?_⟩
        by_cases hc : scalarAt ((0 : UInt8) :: t) 1 4 false = 1
        · simp only [hc, if_true, Prod.mk.injEq, and_true] at h
          exact ⟨hc, h.1.symm, h.2.symm⟩
        · simp [hc] at h
      · by_cases h1 : a = 1
        · rw [if_neg h0, if_pos h1] at h
          subst h1
          refine ⟨true, rfl, ?_⟩
          by_cases hc : scalarAt ((1 : UInt8) :: t) 1 4 true = 1
          · simp only [hc, if_true, Prod.mk.injEq, and_true] at h
            exact ⟨hc, h.1.symm, h.2.symm⟩
          · simp [hc] at h
        · simp [h0, h1] at h

/-- C3: the endianness flag of the outer header has no influence on
`unWKBMultiPoint`, whatever the package `internal/wkb` does; and on a successful
decode there are exactly n points, point i being what `ReadPoint` yields for the
21-byte element at offset 21 i, decoded with the endianness byte of that
element. -/
theorem unWKBMultiPoint_own_endianness (data : List UInt8) (n : Int) :
    (∀ wkb : Wkb, unWKBMultiPoint wkb data true n = unWKBMultiPoint wkb data false n) ∧
    ∀ (littleEndian : Bool) (points : MultiPoint),
      unWKBMultiPoint specWkb data littleEndian n = some (points, none) →
      (points.length : Int) = n ∧
      ∀ i, i < points.length → ∃ p, points[i]? = some p ∧ DecodesElement data i p := by
  refine ⟨fun _ => rfl, ?_⟩
  intro le points h
  unfold unWKBMultiPoint at h
  by_cases hn : n < 0
  · simp [hn] at h
  · simp only [hn, if_false] at h
    obtain ⟨h1, _, h3⟩ := unWKBMultiPoint_loop_inv specWkb data n.toNat 0 _ points h (by simp)
    simp only [List.length_replicate] at h1
    refine ⟨by omega, ?_⟩
    intro i hi
    obtain ⟨hlen, x, y, hrp, hget⟩ := h3 i (Nat.zero_le i) (by omega)
    refine ⟨⟨x, y⟩, hget, ?_⟩
    have hrp' : specReadPoint (data.drop (21 * i)) = (x, y, none) := hrp
    obtain ⟨h21, _⟩ := specReadPoint_ok _ x y hrp'
    have helem : specReadPoint (elementAt data i) = (x, y, none) := by
      unfold elementAt
      rw [specReadPoint_take _ h21]
      exact hrp'
    obtain ⟨_, own, hflag, _, hx, hy⟩ := specReadPoint_ok _ x y helem
    refine ⟨?_, own, hflag, ?_, helem⟩
    · simp only [elementAt, List.length_take]
      omega
    · rw [hx, hy]

/-- Witness of C3: a little-endian element followed by a big-endian one, decoded
under either outer flag. -/
theorem unWKBMultiPoint_own_endianness_witness :
    unWKBMultiPoint specWkb mixedEndianElements true 2
      = unWKBMultiPoint specWkb mixedEndianElements false 2 ∧
    unWKBMultiPoint specWkb mixedEndianElements true 2 = some ([⟨1, 2⟩, ⟨3, 4⟩], none) ∧
    ((([⟨1, 2⟩, ⟨3, 4⟩] : MultiPoint).length : Int) = 2 ∧
      ∀ i, i < ([⟨1, 2⟩, ⟨3, 4⟩] : MultiPoint).length →
        ∃ p, ([⟨1, 2⟩, ⟨3, 4⟩] : MultiPoint)[i]? = some p ∧
          DecodesElement mixedEndianElements i p) :=
  ⟨(unWKBMultiPoint_own_endianness mixedEndianElements 2).1 specWkb, by decide,
    (unWKBMultiPoint_own_endianness mixedEndianElements 2).2 true _ (by decide)⟩

/-! ## The Scan methods -/

/-- Whatever the package `internal/wkb` does, a value it classifies as null (no
error, is-null or nil data) leaves the receiver of `Point.Scan`, `Segment.Scan`,
`MultiPoint.Scan` and `LineString.Scan` as it was, and no error is returned. -/
theorem Scan_null_receiver_unchanged (wkb : Wkb) (value : Value) :
    (∀ (p : Point) (x y : Float64), wkb.ValidatePoint value = (x, y, true, none) →
      Point.Scan wkb p value = (p, none)) ∧
    (∀ (s : Segment) (littleEndian : Bool),
      wkb.ValidateSegment value = (none, littleEndian, none) →
      Segment.Scan wkb s value = some (s, none)) ∧
    (∀ (mp : MultiPoint) (littleEndian : Bool) (length : Int),
      wkb.ValidateMultiPoint value = (none, littleEndian, length, none) →
      MultiPoint.Scan wkb mp value = some (mp, none)) ∧
    (∀ (ls : LineString) (littleEndian : Bool) (length : Int),
      wkb.ValidateLineString value = (none, littleEndian, length, none) →
      LineString.Scan wkb ls value = some (ls, none)) := by
  refine ⟨?_, ?_, ?_, ?_⟩
  · intro p x y h
    simp [Point.Scan, h]
  · intro s le h
    simp [Segment.Scan, h]
  · intro mp le length h
    simp [MultiPoint.Scan, h]
  · intro ls le length h
    simp [LineString.Scan, h]

/-- C5 (the code departs from the claim): scanning NULL into a receiver that holds
a value leaves that value in place instead of the zero-valued geometry.  Here
`Point.Scan` keeps the point (1.0, 2.0), on NULL and on the empty byte sequence,
`Segment.Scan` keeps its segment, and `MultiPoint.Scan` and `LineString.Scan`
keep a one-point sequence; each returns no error. -/
theorem Scan_null_keeps_receiver :
    Point.Scan specWkb ⟨4607182418800017408, 4611686018427387904⟩ .null
      = (⟨4607182418800017408, 4611686018427387904⟩, none) ∧
    Segment.Scan specWkb ⟨⟨4607182418800017408, 0⟩, ⟨0, 4611686018427387904⟩⟩ .null
      = some (⟨⟨4607182418800017408, 0⟩, ⟨0, 4611686018427387904⟩⟩, none) ∧
    MultiPoint.Scan specWkb [⟨4607182418800017408, 4611686018427387904⟩] .null
      = some ([⟨4607182418800017408, 4611686018427387904⟩], none) ∧
    LineString.Scan specWkb [⟨4607182418800017408, 4611686018427387904⟩] .null
      = some ([⟨4607182418800017408, 4611686018427387904⟩], none) ∧
    Point.Scan specWkb ⟨4607182418800017408, 4611686018427387904⟩ (.bytes [])
      = (⟨4607182418800017408, 4611686018427387904⟩, none) ∧
    (⟨4607182418800017408, 4611686018427387904⟩ : Point) ≠ Point.zero := by
  decide

/-- C6: whenever the validation step of `Point.Scan`, `Segment.Scan`, `Rect.Scan`,
`MultiPoint.Scan` or `LineString.Scan` fails with an error e, the method returns
exactly e and the receiver is left equal to its value before the call.  This
holds whatever the functions of the package `internal/wkb` do. -/
theorem Scan_validation_failure (wkb : Wkb) (value : Value) (e : Error) :
    (∀ (p : Point) (x y : Float64) (isNull : Bool),
      wkb.ValidatePoint value = (x, y, isNull, some e) →
      Point.Scan wkb p value = (p, some e)) ∧
    (∀ (s : Segment) (data : Option (List UInt8)) (littleEndian : Bool),
      wkb.ValidateSegment value = (data, littleEndian, some e) →
      Segment.Scan wkb s value = some (s, some e)) ∧
    (∀ (R : Type) (Bound : Segment → R) (r : R) (data : Option (List UInt8))
        (littleEndian : Bool),
      wkb.ValidateSegment value = (data, littleEndian, some e) →
      Rect.Scan wkb Bound r value = some (r, some e)) ∧
    (∀ (mp : MultiPoint) (data : Option (List UInt8)) (littleEndian : Bool) (length : Int),
      wkb.ValidateMultiPoint value = (data, littleEndian, length, some e) →
      MultiPoint.Scan wkb mp value = some (mp, some e)) ∧
    (∀ (ls : LineString) (data : Option (List UInt8)) (littleEndian : Bool) (length : Int),
      wkb.ValidateLineString value = (data, littleEndian, length, some e) →
      LineString.Scan wkb ls value = some (ls, some e)) := by
  refine ⟨?_, ?_, ?_, ?_, ?_⟩
  · intro p x y isNull h
    simp [Point.Scan, h]
  · intro s data le h
    simp [Segment.Scan, h]
  · intro R Bound r data le h
    simp [Rect.Scan, Segment.Scan, h]
  · intro mp data le length h
    simp [MultiPoint.Scan, h]
  · intro ls data le length h
    simp [LineString.Scan, h]

/-- Witness of C6: a value that is no byte sequence fails every validation with
`ErrUnsupportedDataType`, and every receiver keeps its value. -/
theorem Scan_validation_failure_witness :
    Point.Scan specWkb ⟨1, 2⟩ .other = (⟨1, 2⟩, some .ErrUnsupportedDataType) ∧
    Segment.Scan specWkb ⟨⟨1, 2⟩, ⟨3, 4⟩⟩ .other
      = some (⟨⟨1, 2⟩, ⟨3, 4⟩⟩, some .ErrUnsupportedDataType) ∧
    Rect.Scan specWkb (fun s => s) ⟨⟨1, 2⟩, ⟨3, 4⟩⟩ .other
      = some (⟨⟨1, 2⟩, ⟨3, 4⟩⟩, some .ErrUnsupportedDataType) ∧
    MultiPoint.Scan specWkb [⟨1, 2⟩] .other = some ([⟨1, 2⟩], some .ErrUnsupportedDataType) ∧
    LineString.Scan specWkb [⟨1, 2⟩] .other
      = some ([⟨1, 2⟩], some .ErrUnsupportedDataType) :=
  ⟨(Scan_validation_failure specWkb .other .ErrUnsupportedDataType).1 _ 0 0 false rfl,
   (Scan_validation_failure specWkb .other .ErrUnsupportedDataType).2.1 _ none false rfl,
   (Scan_validation_failure specWkb .other .ErrUnsupportedDataType).2.2.1 Segment
      (fun s => s) _ none false rfl,
   (Scan_validation_failure specWkb .other .ErrUnsupportedDataType).2.2.2.1 _ none false 0 rfl,
   (Scan_validation_failure specWkb .other .ErrUnsupportedDataType).2.2.2.2 _ none false 0 rfl⟩

/-! ## Point.Scan over the model of the package -/

/-- On a slice that starts with a header of defined flag and type code 1, the
model of `ReadPoint` decodes both coordinates in the declared byte order. -/
theorem specReadPoint_valid (d : List UInt8) (own : Bool) (hlen : 21 ≤ d.length)
    (hflag : d.head? = some (endianFlag own)) (htype : scalarAt d 1 4 own = 1) :
    specReadPoint d = (scalarAt d 5 8 own, scalarAt d 13 8 own, none) := by
  cases d with
  | nil => simp at hlen
  | cons a t =>
    have ha : a = endianFlag own := Option.some.inj hflag
    have hl : ¬ (a :: t).length < 21 := by omega
    unfold specReadPoint
    rw [if_neg hl, specValidateHeader_cons 1 a t (by simp at hlen; omega)]
    cases own
    · have h0 : a = 0 := ha
      rw [if_pos h0, if_pos htype]
    · have h1 : a = 1 := ha
      have h0 : ¬ a = 0 := by rw [h1]; decide
      rw [if_neg h0, if_pos h1, if_pos htype]

/-- On a slice that starts with a header of defined flag and a type code other
than 1, the model of `ReadPoint` fails with `ErrIncorrectGeometry`. -/
theorem specReadPoint_wrong_type (d : List UInt8) (own : Bool) (hlen : 21 ≤ d.length)
    (hflag : d.head? = some (endianFlag own)) (htype : scalarAt d 1 4 own ≠ 1) :
    specReadPoint d = (0, 0, some .ErrIncorrectGeometry) := by
  cases d with
  | nil => simp at hlen
  | cons a t =>
    have ha : a = endianFlag own := Option.some.inj hflag
    have hl : ¬ (a :: t).length < 21 := by omega
    unfold specReadPoint
    rw [if_neg hl, specValidateHeader_cons 1 a t (by simp at hlen; omega)]
    cases own
    · have h0 : a = 0 := ha
      rw [if_pos h0, if_neg htype]
    · have h1 : a = 1 := ha
      have h0 : ¬ a = 0 := by rw [h1]; decide
      rw [if_neg h0, if_pos h1, if_neg htype]

/-- The model of `ValidatePoint` on a byte sequence of length 21. -/
theorem specValidatePoint_pure (b : List UInt8) (hb : b.length = 21) :
    specValidatePoint (.bytes b) =
      ((specReadPoint b).1, (specReadPoint b).2.1, false, (specReadPoint b).2.2) := by
  simp [specValidatePoint, specDetectFormat, hb]

/-- The model of `ValidatePoint` on a byte sequence of length 25: the leading four
bytes are dropped. -/
theorem specValidatePoint_srid (s b : List UInt8) (hs : s.length = 4) (hb : b.length = 21) :
    specValidatePoint (.bytes (s ++ b)) =
      ((specReadPoint b).1, (specReadPoint b).2.1, false, (specReadPoint b).2.2) := by
  have hd : (s ++ b).drop 4 = b := List.drop_left' hs
  simp [specValidatePoint, specDetectFormat, hb, hs, hd]

/-- C8: for every pure-WKB Point buffer b of length 21 with a declared endianness
and type code 1, and every 4-byte sequence s, `Point.Scan` of b returns no error
and sets the receiver to the (x, y) spelled by bytes 5 to 12 and 13 to 20 of b
in the declared byte order, and `Point.Scan` of s followed by b returns no error
and sets the receiver to the same (x, y), whatever the bytes of s are. -/
theorem Point_Scan_pure_and_srid (b s : List UInt8) (p : Point) (own : Bool)
    (hb : b.length = 21) (hs : s.length = 4)
    (hflag : b.head? = some (endianFlag own)) (htype : scalarAt b 1 4 own = 1) :
    Point.Scan specWkb p (.bytes b) = (⟨scalarAt b 5 8 own, scalarAt b 13 8 own⟩, none) ∧
    Point.Scan specWkb p (.bytes (s ++ b))
      = (⟨scalarAt b 5 8 own, scalarAt b 13 8 own⟩, none) := by
  have hrp := specReadPoint_valid b own (by omega) hflag htype
  constructor
  · simp [Point.Scan, specWkb, specValidatePoint_pure b hb, hrp]
  · simp [Point.Scan, specWkb, specValidatePoint_srid s b hs hb, hrp]

/-- Witness of C8: the big-endian point (1.0, 2.0), alone and behind the SRID
bytes of 4326. -/
theorem Point_Scan_pure_and_srid_witness :
    Point.Scan specWkb ⟨7, 7⟩ (.bytes samplePointBigEndian)
      = (⟨4607182418800017408, 4611686018427387904⟩, none) ∧
    Point.Scan specWkb ⟨7, 7⟩ (.bytes ([230, 16, 0, 0] ++ samplePointBigEndian))
      = (⟨4607182418800017408, 4611686018427387904⟩, none) :=
  Point_Scan_pure_and_srid samplePointBigEndian [230, 16, 0, 0] ⟨7, 7⟩ false
    (by decide) (by decide) (by decide) (by decide)

/-- C9: for every byte sequence whose length is neither 0 (the empty column) nor
21 nor 25, in particular 20 or 22, `Point.Scan` fails with `ErrNotWKB` and leaves
the receiver unchanged. -/
theorem Point_Scan_bad_length (data : List UInt8) (p : Point)
    (h0 : data.length ≠ 0) (h21 : data.length ≠ 21) (h25 : data.length ≠ 25) :
    Point.Scan specWkb p (.bytes data) = (p, some .ErrNotWKB) := by
  simp [Point.Scan, specWkb, specValidatePoint, specDetectFormat, h0, h21, h25]

/-- Witness of C9: the sample point with its last byte missing, 20 bytes. -/
theorem Point_Scan_bad_length_witness :
    Point.Scan specWkb ⟨7, 7⟩ (.bytes (samplePointBigEndian.take 20))
      = (⟨7, 7⟩, some .ErrNotWKB) :=
  Point_Scan_bad_length (samplePointBigEndian.take 20) ⟨7, 7⟩
    (by decide) (by decide) (by decide)

/-- C10: for every byte sequence of Point length, 21 or 25 with four leading SRID
bytes, whose header declares an endianness and a type code other than 1 (for
instance 2, LineString), `Point.Scan` fails with `ErrIncorrectGeometry` and leaves
the receiver unchanged, whatever the coordinate bytes are. -/
theorem Point_Scan_wrong_type (b s : List UInt8) (p : Point) (own : Bool)
    (hb : b.length = 21) (hs : s.length = 4)
    (hflag : b.head? = some (endianFlag own)) (htype : scalarAt b 1 4 own ≠ 1) :
    Point.Scan specWkb p (.bytes b) = (p, some .ErrIncorrectGeometry) ∧
    Point.Scan specWkb p (.bytes (s ++ b)) = (p, some .ErrIncorrectGeometry) := by
  have hrp := specReadPoint_wrong_type b own (by omega) hflag htype
  constructor
  · simp [Point.Scan, specWkb, specValidatePoint_pure b hb, hrp]
  · simp [Point.Scan, specWkb, specValidatePoint_srid s b hs hb, hrp]

/-- Witness of C10: a 21-byte little-endian buffer of type code 2. -/
theorem Point_Scan_wrong_type_witness :
    Point.Scan specWkb ⟨7, 7⟩ (.bytes sampleLineStringTyped)
      = (⟨7, 7⟩, some .ErrIncorrectGeometry) ∧
    Point.Scan specWkb ⟨7, 7⟩ (.bytes ([230, 16, 0, 0] ++ sampleLineStringTyped))
      = (⟨7, 7⟩, some .ErrIncorrectGeometry) :=
  Point_Scan_wrong_type sampleLineStringTyped [230, 16, 0, 0] ⟨7, 7⟩ true
    (by decide) (by decide) (by decide) (by decide)

/-! ## Round trip through a conforming MultiPoint writer -/

theorem length_encodePoint (le : Bool) (p : Point) : (encodePoint le p).length = 21 := by
  simp [encodePoint, length_putScalar]

theorem length_encodePoints (le : Bool) (cs : List Point) :
    (encodePoints le cs).length = 21 * cs.length := by
  induction cs with
  | nil => rfl
  | cons p ps ih => simp [encodePoints, length_encodePoint, ih]; omega

/-- The model of `ReadPoint` recovers a point from its encoding, whatever bytes
follow. -/
theorem specReadPoint_encodePoint (le : Bool) (p : Point) (rest : List UInt8)
    (hp : p.IsFloat64) :
    specReadPoint (encodePoint le p ++ rest) = (p.x, p.y, none) := by
  have hlen : 21 ≤ (encodePoint le p ++ rest).length := by
    simp [length_encodePoint]
  have hflag : (encodePoint le p ++ rest).head? = some (endianFlag le) := by
    simp [encodePoint]
  have e1 : encodePoint le p ++ rest =
      [endianFlag le] ++ putScalar 4 1 le ++
        (putScalar 8 p.x le ++ putScalar 8 p.y le ++ rest) := by
    simp [encodePoint, List.append_assoc]
  have e2 : encodePoint le p ++ rest =
      ([endianFlag le] ++ putScalar 4 1 le) ++ putScalar 8 p.x le ++
        (putScalar 8 p.y le ++ rest) := by
    simp [encodePoint, List.append_assoc]
  have e3 : encodePoint le p ++ rest =
      ([endianFlag le] ++ putScalar 4 1 le ++ putScalar 8 p.x le) ++ putScalar 8 p.y le ++
        rest := by
    simp [encodePoint, List.append_assoc]
  have htype : scalarAt (encodePoint le p ++ rest) 1 4 le = 1 := by
    rw [e1, scalarAt_putScalar _ _ 1 4 1 le (by simp)]
    decide
  have hx : scalarAt (encodePoint le p ++ rest) 5 8 le = p.x := by
    rw [e2, scalarAt_putScalar _ _ 5 8 p.x le (by simp [length_putScalar])]
    exact Nat.mod_eq_of_lt hp.1
  have hy : scalarAt (encodePoint le p ++ rest) 13 8 le = p.y := by
    rw [e3, scalarAt_putScalar _ _ 13 8 p.y le (by simp [length_putScalar])]
    exact Nat.mod_eq_of_lt hp.2
  rw [specReadPoint_valid _ le hlen hflag htype, hx, hy]

/-- Element `j` of the encoded elements starts at offset 21 j. -/
theorem drop_encodePoints (le : Bool) :
    ∀ (cs : List Point) (j : Nat) (p : Point), cs[j]? = some p →
      ∃ rest, (encodePoints le cs).drop (21 * j) = encodePoint le p ++ rest := by
  intro cs
  induction cs with
  | nil => intro j p h; simp at h
  | cons c ps ih =>
    intro j p h
    cases j with
    | zero =>
      simp only [List.getElem?_cons_zero, Option.some.injEq] at h
      subst h
      exact ⟨encodePoints le ps, by simp [encodePoints]⟩
    | succ j =>
      simp only [List.getElem?_cons_succ] at h
      obtain ⟨rest, hrest⟩ := ih j p h
      refine ⟨rest, ?_⟩
      have h21 : 21 * (j + 1) = (encodePoint le c).length + 21 * j := by
        rw [length_encodePoint]; omega
      rw [encodePoints, h21, List.drop_append, hrest]

/-- The model of `ValidateMultiPoint` accepts the buffer of a conforming writer
and hands on its elements, its byte order and its count. -/
theorem specValidateMultiPoint_encodeMultiPoint (le : Bool) (cs : List Point)
    (hcount : cs.length < 2 ^ 32) :
    specValidateMultiPoint (.bytes (encodeMultiPoint le cs)) =
      (some (encodePoints le cs), le, (cs.length : Int), none) := by
  have hlen : (encodeMultiPoint le cs).length = 9 + 21 * cs.length := by
    simp [encodeMultiPoint, length_putScalar, length_encodePoints]; omega
  have e1 : encodeMultiPoint le cs =
      [endianFlag le] ++ putScalar 4 4 le ++
        (putScalar 4 cs.length le ++ encodePoints le cs) := by
    simp [encodeMultiPoint, List.append_assoc]
  have e2 : encodeMultiPoint le cs =
      ([endianFlag le] ++ putScalar 4 4 le) ++ putScalar 4 cs.length le ++
        encodePoints le cs := by
    simp [encodeMultiPoint, List.append_assoc]
  have htype : scalarAt (encodeMultiPoint le cs) 1 4 le = 4 := by
    rw [e1, scalarAt_putScalar _ _ 1 4 4 le (by simp)]
    decide
  have hcnt : scalarAt (encodeMultiPoint le cs) 5 4 le = cs.length := by
    rw [e2, scalarAt_putScalar _ _ 5 4 cs.length le (by simp [length_putScalar])]
    exact Nat.mod_eq_of_lt hcount
  have hdrop : (encodeMultiPoint le cs).drop 9 = encodePoints le cs := by
    rw [e2]
    exact List.drop_left' (by simp [length_putScalar])
  obtain ⟨t, ht⟩ : ∃ t, encodeMultiPoint le cs = endianFlag le :: t :=
    ⟨_, by simp [encodeMultiPoint]; rfl⟩
  have ht4 : 4 ≤ t.length := by
    have := congrArg List.length ht
    simp [hlen] at this
    omega
  have htrial : specTrialHeader 21 (encodeMultiPoint le cs) = some cs.length := by
    have h9 : ¬ (encodeMultiPoint le cs).length < 9 := by omega
    unfold specTrialHeader
    rw [if_neg h9]
    have hh : (encodeMultiPoint le cs).head? = some (endianFlag le) := by rw [ht]; rfl
    rw [hh]
    cases le
    · simp only [endianFlag]
      simp [hcnt, hlen]
    · simp only [endianFlag]
      simp [hcnt, hlen]
  have hhead : specValidateHeader 4 (encodeMultiPoint le cs) = .ok le := by
    have hc := specValidateHeader_cons 4 (endianFlag le) t ht4
    rw [← ht] at hc
    rw [hc]
    cases le
    · simp [endianFlag, htype]
    · simp [endianFlag, htype]
  have hne : (encodeMultiPoint le cs).length ≠ 0 := by omega
  simp [specValidateMultiPoint, specValidateVariable, hne, htrial, hhead, hdrop]

/-- C7: for every sequence of coordinates cs that a writer can encode (fewer than
2 ^ 32 elements, each coordinate a 64-bit pattern) and each of the two byte
orders, scanning the MultiPoint buffer of cs with `MultiPoint.Scan` returns no
error and leaves the receiver equal to cs, in the same order and with the same
length, whatever the receiver held before. -/
theorem MultiPoint_Scan_roundtrip (cs : List Point) (littleEndian : Bool) (mp : MultiPoint)
    (hcount : cs.length < 2 ^ 32) (hfloat : ∀ c, c ∈ cs → c.IsFloat64) :
    MultiPoint.Scan specWkb mp (.bytes (encodeMultiPoint littleEndian cs))
      = some (cs, none) := by
  have hval := specValidateMultiPoint_encodeMultiPoint littleEndian cs hcount
  have helem : ∀ j, j < cs.length →
      21 * j ≤ (encodePoints littleEndian cs).length ∧
      ∃ p, cs[j]? = some p ∧
        specReadPoint ((encodePoints littleEndian cs).drop (21 * j)) = (p.x, p.y, none) := by
    intro j hj
    refine ⟨by rw [length_encodePoints]; omega, cs[j], by simp [hj], ?_⟩
    obtain ⟨rest, hrest⟩ := drop_encodePoints littleEndian cs j cs[j] (by simp [hj])
    rw [hrest]
    exact specReadPoint_encodePoint littleEndian cs[j] rest (hfloat _ (List.getElem_mem _))
  obtain ⟨res, hres⟩ := unWKBMultiPoint_loop_isSome specWkb (encodePoints littleEndian cs)
    cs.length 0 (List.replicate cs.length Point.zero)
    (fun j _ hj => by
      obtain ⟨h1, p, _, h2⟩ := helem j (by omega)
      refine ⟨h1, ?_⟩
      show (specReadPoint _).2.2 = none
      rw [h2])
  obtain ⟨h1, _, h3⟩ := unWKBMultiPoint_loop_inv specWkb (encodePoints littleEndian cs)
    cs.length 0 _ res hres (by simp)
  simp only [List.length_replicate] at h1
  have hcs : res = cs := by
    apply List.ext_getElem?
    intro j
    by_cases hj : j < cs.length
    · obtain ⟨_, x, y, hrp, hget⟩ := h3 j (Nat.zero_le j) (by omega)
      obtain ⟨_, p, hp, hrp2⟩ := helem j hj
      have hrp3 : specReadPoint ((encodePoints littleEndian cs).drop (21 * j)) = (x, y, none) :=
        hrp
      rw [hrp2] at hrp3
      simp only [Prod.mk.injEq, and_true] at hrp3
      rw [hget, hp, ← hrp3.1, ← hrp3.2]
    · rw [List.getElem?_eq_none (by omega), List.getElem?_eq_none (by omega)]
  subst hcs
  have hv : specWkb.ValidateMultiPoint (.bytes (encodeMultiPoint littleEndian res)) =
      (some (encodePoints littleEndian res), littleEndian, (res.length : Int), none) := hval
  simp [MultiPoint.Scan, hv, unWKBMultiPoint, hres]

/-- Witness of C7: the sequence (1.0, 2.0), (2.0, 1.0) in big-endian encoding,
scanned into a receiver that held one other point. -/
theorem MultiPoint_Scan_roundtrip_witness :
    MultiPoint.Scan specWkb [⟨7, 7⟩] (.bytes (encodeMultiPoint false
        [⟨4607182418800017408, 4611686018427387904⟩,
         ⟨4611686018427387904, 4607182418800017408⟩]))
      = some ([⟨4607182418800017408, 4611686018427387904⟩,
               ⟨4611686018427387904, 4607182418800017408⟩], none) :=
  MultiPoint_Scan_roundtrip _ false [⟨7, 7⟩] (by decide) (by
    intro c hc
    simp only [List.mem_cons, List.mem_singleton, List.mem_nil_iff, or_false] at hc
    rcases hc with h | h <;> subst h <;> exact ⟨by decide, by decide⟩)

/-! ## Validation outcomes of the Scan methods -/

/-- C11: for the input value that is neither NULL nor a byte sequence, each of
`Point.Scan`, `Segment.Scan`, `MultiPoint.Scan` and `LineString.Scan` fails with
`ErrUnsupportedDataType` and leaves the receiver unchanged. -/
theorem Scan_unsupported_value (p : Point) (s : Segment) (mp : MultiPoint)
    (ls : LineString) :
    Point.Scan specWkb p .other = (p, some .ErrUnsupportedDataType) ∧
    Segment.Scan specWkb s .other = some (s, some .ErrUnsupportedDataType) ∧
    MultiPoint.Scan specWkb mp .other = some (mp, some .ErrUnsupportedDataType) ∧
    LineString.Scan specWkb ls .other = some (ls, some .ErrUnsupportedDataType) := by
  refine ⟨?_, ?_, ?_, ?_⟩
  · simp [Point.Scan, specWkb, specValidatePoint]
  · simp [Segment.Scan, specWkb, specValidateSegment]
  · simp [MultiPoint.Scan, specWkb, specValidateMultiPoint, specValidateVariable]
  · simp [LineString.Scan, specWkb, specValidateLineString, specValidateVariable]

/-- The Header Validator of the model on a header with a defined flag. -/
theorem specValidateHeader_flag (expected : Nat) (d : List UInt8) (own : Bool)
    (hlen : 5 ≤ d.length) (hflag : d.head? = some (endianFlag own)) :
    specValidateHeader expected d =
      if scalarAt d 1 4 own = expected then .ok own else .error .ErrIncorrectGeometry := by
  cases d with
  | nil => simp at hlen
  | cons a t =>
    have ha : a = endianFlag own := Option.some.inj hflag
    rw [specValidateHeader_cons expected a t (by simp at hlen; omega)]
    cases own
    · have h0 : a = 0 := ha
      rw [if_pos h0]
    · have h1 : a = 1 := ha
      have h0 : ¬ a = 0 := by rw [h1]; decide
      rw [if_neg h0, if_pos h1]

/-- C12: for every LineString-typed byte sequence of Segment length, 41 bytes or
45 with four leading SRID bytes, whose header declares an endianness and whose
4-byte point count is not exactly 2, `Segment.Scan` fails with
`ErrIncorrectGeometry` and leaves the receiver unchanged. -/
theorem Segment_Scan_count_not_two (b s : List UInt8) (seg : Segment) (own : Bool)
    (hb : b.length = 41) (hs : s.length = 4)
    (hflag : b.head? = some (endianFlag own)) (htype : scalarAt b 1 4 own = 2)
    (hcount : scalarAt b 5 4 own ≠ 2) :
    Segment.Scan specWkb seg (.bytes b) = some (seg, some .ErrIncorrectGeometry) ∧
    Segment.Scan specWkb seg (.bytes (s ++ b)) = some (seg, some .ErrIncorrectGeometry) := by
  have hh := specValidateHeader_flag 2 b own (by omega) hflag
  rw [if_pos htype] at hh
  have hd : (s ++ b).drop 4 = b := List.drop_left' hs
  constructor
  · simp [Segment.Scan, specWkb, specValidateSegment, specDetectFormat, hb, hh, hcount]
  · simp [Segment.Scan, specWkb, specValidateSegment, specDetectFormat, hb, hs, hd, hh,
      hcount]

/-- Witness of C12: a LineString-typed buffer of 41 bytes with point count 3, alone
and behind four SRID bytes. -/
theorem Segment_Scan_count_not_two_witness :
    Segment.Scan specWkb ⟨⟨1, 2⟩, ⟨3, 4⟩⟩ (.bytes sampleSegmentCountThree)
      = some (⟨⟨1, 2⟩, ⟨3, 4⟩⟩, some .ErrIncorrectGeometry) ∧
    Segment.Scan specWkb ⟨⟨1, 2⟩, ⟨3, 4⟩⟩ (.bytes ([230, 16, 0, 0] ++ sampleSegmentCountThree))
      = some (⟨⟨1, 2⟩, ⟨3, 4⟩⟩, some .ErrIncorrectGeometry) :=
  Segment_Scan_count_not_two sampleSegmentCountThree [230, 16, 0, 0] ⟨⟨1, 2⟩, ⟨3, 4⟩⟩ true
    (by decide) (by decide) (by decide) (by decide) (by decide)

/-- C13: `Rect.Scan` follows `Segment.Scan` on the same value.  When `Segment.Scan`
succeeds with a segment s decoded from the data of the value, `Rect.Scan` returns
no error and sets its receiver to the bound of s; the same holds for whatever
`Segment.Scan` leaves in a zero receiver; `Rect.Scan` fails exactly when
`Segment.Scan` fails, with the same error and its receiver unchanged, and panics
exactly when `Segment.Scan` panics.  This holds whatever the package
`internal/wkb` and the method `Segment.Bound` do. -/
theorem Rect_Scan_follows_Segment_Scan (wkb : Wkb) (R : Type) (Bound : Segment → R) (r : R)
    (value : Value) :
    (∀ (s0 s : Segment) (d : List UInt8) (littleEndian : Bool),
      wkb.ValidateSegment value = (some d, littleEndian, none) →
      Segment.Scan wkb s0 value = some (s, none) →
      Rect.Scan wkb Bound r value = some (Bound s, none)) ∧
    (∀ s : Segment, Segment.Scan wkb Segment.zero value = some (s, none) →
      Rect.Scan wkb Bound r value = some (Bound s, none)) ∧
    (∀ (s0 : Segment) (e : Error),
      (∃ s, Segment.Scan wkb s0 value = some (s, some e)) ↔
        Rect.Scan wkb Bound r value = some (r, some e)) ∧
    (∀ s0 : Segment, Segment.Scan wkb s0 value = none ↔
      Rect.Scan wkb Bound r value = none) := by
  have hzero : ∀ s : Segment, Segment.Scan wkb Segment.zero value = some (s, none) →
      Rect.Scan wkb Bound r value = some (Bound s, none) := by
    intro s h
    simp [Rect.Scan, h]
  rcases hv : wkb.ValidateSegment value with ⟨data, le, err⟩
  refine ⟨?_, hzero, ?_, ?_⟩
  · intro s0 s d le2 hd h
    apply hzero
    simp only [Prod.mk.injEq] at hd
    obtain ⟨h1, h2, h3⟩ := hd
    subst h1 h2 h3
    simp only [Segment.Scan, hv] at h ⊢
    simpa using h
  · intro s0 e
    cases err with
    | some e2 =>
      simp only [Rect.Scan, Segment.Scan, hv]
      simp
    | none =>
      cases data with
      | none =>
        simp only [Rect.Scan, Segment.Scan, hv]
        simp
      | some d =>
        simp only [Rect.Scan, Segment.Scan, hv]
        simp only [ne_eq, not_true_eq_false, false_or, Option.getD_some, reduceCtorEq,
          if_false]
        rcases hu : unWKBSegment wkb d le with _ | ⟨s, _ | e2⟩
        · simp
        · simp
        · simp
  · intro s0
    cases err with
    | some e2 =>
      simp only [Rect.Scan, Segment.Scan, hv]
      simp
    | none =>
      cases data with
      | none =>
        simp only [Rect.Scan, Segment.Scan, hv]
        simp
      | some d =>
        simp only [Rect.Scan, Segment.Scan, hv]
        simp only [ne_eq, not_true_eq_false, false_or, Option.getD_some, reduceCtorEq,
          if_false]
        rcases hu : unWKBSegment wkb d le with _ | ⟨s, _ | e2⟩
        · simp
        · simp
        · simp

/-- Witness of C13: a complete big-endian Segment buffer, scanned into a segment
and into a rectangle whose bound is the segment itself. -/
theorem Rect_Scan_follows_Segment_Scan_witness :
    Rect.Scan specWkb (fun s => s) ⟨⟨9, 9⟩, ⟨9, 9⟩⟩ (.bytes sampleSegmentBigEndian)
      = some (⟨⟨4607182418800017408, 4611686018427387904⟩,
               ⟨4611686018427387904, 4607182418800017408⟩⟩, none) :=
  (Rect_Scan_follows_Segment_Scan specWkb Segment (fun s => s) ⟨⟨9, 9⟩, ⟨9, 9⟩⟩
    (.bytes sampleSegmentBigEndian)).1 ⟨⟨7, 7⟩, ⟨7, 7⟩⟩ _ (sampleSegmentBigEndian.drop 9) false
    (by decide) (by decide)

/-- C16: `MultiPoint.Scan` is not atomic on element failure.  When the validation
of the outer header succeeds and, after k elements decoded, `ReadPoint` fails on
element k with error e, the method returns e and the receiver is overwritten with
the nil sequence, whatever it held; after a validation failure the receiver keeps
its contents.  This holds whatever the package `internal/wkb` does. -/
theorem MultiPoint_Scan_element_failure (wkb : Wkb) (mp : MultiPoint) (value : Value)
    (d : List UInt8) (littleEndian : Bool) (n k : Nat) (e : Error)
    (hval : wkb.ValidateMultiPoint value = (some d, littleEndian, (n : Int), none))
    (hk : k < n) (hlen : 21 * k ≤ d.length)
    (hok : ∀ j, j < k → (wkb.ReadPoint (d.drop (21 * j))).2.2 = none)
    (hfail : (wkb.ReadPoint (d.drop (21 * k))).2.2 = some e) :
    MultiPoint.Scan wkb mp value = some ([], some e) ∧
    ∀ (value2 : Value) (data : Option (List UInt8)) (le : Bool) (length : Int) (e2 : Error),
      wkb.ValidateMultiPoint value2 = (data, le, length, some e2) →
      MultiPoint.Scan wkb mp value2 = some (mp, some e2) := by
  constructor
  · have h := unWKBMultiPoint_loop_fail wkb d k e hlen hfail n 0
      (List.replicate n Point.zero) (Nat.zero_le k) (by omega) (fun j _ hj => hok j hj)
    simp [MultiPoint.Scan, hval, unWKBMultiPoint, h]
  · intro value2 data le length e2 h
    simp [MultiPoint.Scan, h]

/-- Witness of C16: element 3 of 5 declares type code 2; the receiver, which held
one point, is left nil, while a value of another type leaves it alone. -/
theorem MultiPoint_Scan_element_failure_witness :
    MultiPoint.Scan specWkb [⟨1, 2⟩] (.bytes sampleMultiPointThirdLineString)
      = some ([], some .ErrIncorrectGeometry) ∧
    MultiPoint.Scan specWkb [⟨1, 2⟩] .other = some ([⟨1, 2⟩], some .ErrUnsupportedDataType) :=
  ⟨(MultiPoint_Scan_element_failure specWkb [⟨1, 2⟩] (.bytes sampleMultiPointThirdLineString)
      fiveElementsThirdLineString true 5 2 .ErrIncorrectGeometry
      (by decide) (by decide) (by decide) (by decide) (by decide)).1,
   (MultiPoint_Scan_element_failure specWkb [⟨1, 2⟩] (.bytes sampleMultiPointThirdLineString)
      fiveElementsThirdLineString true 5 2 .ErrIncorrectGeometry
      (by decide) (by decide) (by decide) (by decide) (by decide)).2
      .other none false 0 .ErrUnsupportedDataType rfl⟩

/-- C17: when the validation of a Segment yields nil data and no error (a null or
empty value), `Rect.Scan` returns no error and overwrites its receiver with the
bound of the zero segment (0,0)-(0,0), whereas `Segment.Scan` on the same value
leaves its receiver equal to its value before the call.  This holds whatever the
package `internal/wkb` and the method `Segment.Bound` do. -/
theorem Rect_Scan_null_overwrites (wkb : Wkb) (R : Type) (Bound : Segment → R) (r : R)
    (s : Segment) (value : Value) (littleEndian : Bool)
    (hval : wkb.ValidateSegment value = (none, littleEndian, none)) :
    Rect.Scan wkb Bound r value = some (Bound Segment.zero, none) ∧
    Segment.Scan wkb s value = some (s, none) := by
  constructor
  · simp [Rect.Scan, Segment.Scan, hval]
  · simp [Segment.Scan, hval]

/-- Witness of C17: NULL scanned into a rectangle and into a segment that both
held the segment from (1, 2) to (3, 4). -/
theorem Rect_Scan_null_overwrites_witness :
    Rect.Scan specWkb (fun s => s) ⟨⟨1, 2⟩, ⟨3, 4⟩⟩ .null = some (Segment.zero, none) ∧
    Segment.Scan specWkb ⟨⟨1, 2⟩, ⟨3, 4⟩⟩ .null = some (⟨⟨1, 2⟩, ⟨3, 4⟩⟩, none) :=
  Rect_Scan_null_overwrites specWkb Segment (fun s => s) ⟨⟨1, 2⟩, ⟨3, 4⟩⟩ ⟨⟨1, 2⟩, ⟨3, 4⟩⟩
    .null false rfl

/-! ## What the decoders hand to the float reader -/

theorem readWKBPoint_lengthProbe (d : List UInt8) (le : Bool) (h : 8 ≤ d.length) :
    readWKBPoint lengthProbe d le = some ⟨8, d.length - 8⟩ := by
  have hm : min 8 d.length = 8 := by omega
  simp [readWKBPoint, sliceTo, sliceFrom, lengthProbe, h, hm]

theorem unWKBSegment_lengthProbe (data : List UInt8) (le : Bool) (h : 32 ≤ data.length) :
    unWKBSegment lengthProbe data le = some (⟨⟨8, 8⟩, ⟨8, data.length - 24⟩⟩, none) := by
  have h16 : 16 ≤ data.length := by omega
  have ha := readWKBPoint_lengthProbe (data.take 16) le (by simp; omega)
  have hb := readWKBPoint_lengthProbe (data.drop 16) le (by simp; omega)
  have e1 : (data.take 16).length - 8 = 8 := by simp; omega
  have e2 : (data.drop 16).length - 8 = data.length - 24 := by simp; omega
  rw [e1] at ha
  rw [e2] at hb
  simp [unWKBSegment, sliceTo, sliceFrom, h16, ha, hb]

theorem unWKBLineString_lengthProbe (data : List UInt8) (le : Bool) (n : Nat)
    (h : 16 * n ≤ data.length) :
    ∃ points, unWKBLineString lengthProbe data le (n : Int) = some (points, none) ∧
      points.length = n ∧
      ∀ i, i < n → points[i]? = some ⟨8, data.length - 16 * i - 8⟩ := by
  have hread : ∀ j, j < n → readWKBPoint lengthProbe (data.drop (16 * j)) le =
      some ⟨8, data.length - 16 * j - 8⟩ := by
    intro j hj
    rw [readWKBPoint_lengthProbe _ _ (by simp; omega)]
    simp
  have hsome := unWKBLineString_loop_isSome lengthProbe data le n 0
    (List.replicate n Point.zero)
    (fun j _ hj => ⟨by omega, by rw [hread j (by omega)]; rfl⟩)
  obtain ⟨res, hres⟩ := Option.isSome_iff_exists.mp hsome
  obtain ⟨h1, _, h3⟩ := unWKBLineString_loop_inv lengthProbe data le n 0 _ res hres
    (by simp)
  refine ⟨res, ?_, by simpa using h1, ?_⟩
  · simp [unWKBLineString, hres]
  · intro i hi
    obtain ⟨_, p, hp, hget⟩ := h3 i (Nat.zero_le i) (by omega)
    rw [hread i hi] at hp
    rw [hget, ← hp]

/-- C14 as stated fails: on a 32-byte payload with count 2, `unWKBLineString`
hands the float reader 24 bytes, not 8, for the y read of the first point. -/
theorem unWKBLineString_y_read_not_8_bytes :
    unWKBLineString lengthProbe (List.replicate 32 0) true 2
      = some ([⟨8, 24⟩, ⟨8, 8⟩], none) := by
  decide

/-- C14 as amended: every x read hands the float reader exactly 8 bytes, and every
y read hands it the rest of the slice `readWKBPoint` received, from offset 8 on,
which is at least 8 bytes.  For `readWKBPoint` on a slice of L bytes the y read
gets L - 8 bytes; for `unWKBSegment` the first point gets 8 and 8 bytes and the
second 8 and L - 24 (8 on a 32-byte payload); for `unWKBLineString` on a payload
of L bytes, point i gets 8 and L - 16 i - 8 bytes, which is 8 bytes only for the
last point of a payload of exactly 16 n bytes. -/
theorem float_reads_lengths (data : List UInt8) (littleEndian : Bool) (n : Nat) :
    (16 ≤ data.length →
      readWKBPoint lengthProbe data littleEndian = some ⟨8, data.length - 8⟩) ∧
    (32 ≤ data.length →
      unWKBSegment lengthProbe data littleEndian
        = some (⟨⟨8, 8⟩, ⟨8, data.length - 24⟩⟩, none)) ∧
    (16 * n ≤ data.length →
      ∃ points, unWKBLineString lengthProbe data littleEndian (n : Int) = some (points, none) ∧
        points.length = n ∧
        ∀ i, i < n → points[i]? = some ⟨8, data.length - 16 * i - 8⟩) :=
  ⟨fun h => readWKBPoint_lengthProbe data littleEndian (by omega),
   unWKBSegment_lengthProbe data littleEndian,
   unWKBLineString_lengthProbe data littleEndian n⟩

/-- Witness of C14 as amended: a 48-byte payload read as a point, as a segment and
as a line string of three points. -/
theorem float_reads_lengths_witness :
    readWKBPoint lengthProbe (List.replicate 48 0) false = some ⟨8, 40⟩ ∧
    unWKBSegment lengthProbe (List.replicate 48 0) false = some (⟨⟨8, 8⟩, ⟨8, 24⟩⟩, none) ∧
    ∃ points, unWKBLineString lengthProbe (List.replicate 48 0) false ((3 : Nat) : Int)
        = some (points, none) ∧
      points.length = 3 ∧
      ∀ i, i < 3 → points[i]? = some ⟨8, (List.replicate 48 (0 : UInt8)).length - 16 * i - 8⟩ :=
  ⟨(float_reads_lengths (List.replicate 48 0) false 3).1 (by decide),
   (float_reads_lengths (List.replicate 48 0) false 3).2.1 (by decide),
   (float_reads_lengths (List.replicate 48 0) false 3).2.2 (by decide)⟩

/-! ## The decoders stay within bounds -/

theorem unWKBMultiPoint_loop_no_panic (wkb : Wkb) (data : List UInt8) :
    ∀ (todo i : Nat) (points : List Point),
      (∀ j, i ≤ j → j < i + todo → 21 * j ≤ data.length) →
      (unWKBMultiPoint.loop wkb data todo i points).isSome := by
  intro todo
  induction todo with
  | zero => intro i points _; rfl
  | succ t ih =>
    intro i points h
    have hs := h i (Nat.le_refl i) (by omega)
    rcases hrp : wkb.ReadPoint (data.drop (21 * i)) with ⟨x, y, err⟩
    cases err with
    | some e => simp [unWKBMultiPoint.loop, sliceFrom, hs, hrp]
    | none =>
      simp only [unWKBMultiPoint.loop, sliceFrom, hs, if_true, hrp]
      exact ih (i + 1) _ (fun j h1 h2 => h j (by omega) (by omega))

theorem readWKBPoint_no_panic (wkb : Wkb)
    (hread : ∀ d le, 8 ≤ d.length → (wkb.ReadFloat64 d le).isSome)
    (d : List UInt8) (le : Bool) (h : 16 ≤ d.length) :
    (readWKBPoint wkb d le).isSome := by
  have h8 : 8 ≤ d.length := by omega
  obtain ⟨x, hx⟩ := Option.isSome_iff_exists.mp (hread (d.take 8) le (by simp; omega))
  obtain ⟨y, hy⟩ := Option.isSome_iff_exists.mp (hread (d.drop 8) le (by simp; omega))
  simp [readWKBPoint, sliceTo, sliceFrom, h8, hx, hy]

/-- C15: let the float reader accept every slice of at least 8 bytes.  Then, for a
count n that is not negative, `unWKBLineString` on a payload of at least 16 n
bytes, `unWKBMultiPoint` on a payload of at least 21 n bytes and `unWKBSegment`
on a payload of at least 32 bytes evaluate every slice expression within bounds
and hand every float read at least 8 bytes: no run-time panic is reached, and
the lengths recorded by the probe are all at least 8. -/
theorem decoders_stay_in_bounds (wkb : Wkb)
    (hread : ∀ d le, 8 ≤ d.length → (wkb.ReadFloat64 d le).isSome)
    (data : List UInt8) (littleEndian : Bool) (n : Nat) :
    (16 * n ≤ data.length →
      (∃ points, unWKBLineString wkb data littleEndian (n : Int) = some (points, none)) ∧
      ∀ points, unWKBLineString lengthProbe data littleEndian (n : Int) = some (points, none) →
        ∀ p, p ∈ points → 8 ≤ p.x ∧ 8 ≤ p.y) ∧
    (21 * n ≤ data.length → (unWKBMultiPoint wkb data littleEndian (n : Int)).isSome) ∧
    (32 ≤ data.length →
      (∃ s, unWKBSegment wkb data littleEndian = some (s, none)) ∧
      ∀ s, unWKBSegment lengthProbe data littleEndian = some (s, none) →
        8 ≤ s.a.x ∧ 8 ≤ s.a.y ∧ 8 ≤ s.b.x ∧ 8 ≤ s.b.y) := by
  refine ⟨?_, ?_, ?_⟩
  · intro h
    constructor
    · have hsome := unWKBLineString_loop_isSome wkb data littleEndian n 0
        (List.replicate n Point.zero)
        (fun j _ hj => ⟨by omega,
          readWKBPoint_no_panic wkb hread _ littleEndian (by simp; omega)⟩)
      obtain ⟨res, hres⟩ := Option.isSome_iff_exists.mp hsome
      exact ⟨res, by simp [unWKBLineString, hres]⟩
    · intro points hp p hmem
      obtain ⟨pts, hpts, hl, hget⟩ := unWKBLineString_lengthProbe data littleEndian n h
      rw [hpts] at hp
      simp only [Option.some.injEq, Prod.mk.injEq, and_true] at hp
      subst hp
      obtain ⟨i, hi, hpi⟩ := List.getElem_of_mem hmem
      have := hget i (by omega)
      rw [List.getElem?_eq_getElem hi, hpi] at this
      simp only [Option.some.injEq] at this
      subst this
      refine ⟨Nat.le_refl 8, ?_⟩
      show 8 ≤ data.length - 16 * i - 8
      omega
  · intro h
    have := unWKBMultiPoint_loop_no_panic wkb data n 0 (List.replicate n Point.zero)
      (fun j _ hj => by omega)
    simpa [unWKBMultiPoint] using this
  · intro h
    have h16 : 16 ≤ data.length := by omega
    constructor
    · obtain ⟨a, ha⟩ := Option.isSome_iff_exists.mp
        (readWKBPoint_no_panic wkb hread (data.take 16) littleEndian (by simp; omega))
      obtain ⟨b, hb⟩ := Option.isSome_iff_exists.mp
        (readWKBPoint_no_panic wkb hread (data.drop 16) littleEndian (by simp; omega))
      exact ⟨⟨a, b⟩, by simp [unWKBSegment, sliceTo, sliceFrom, h16, ha, hb]⟩
    · intro s hs
      rw [unWKBSegment_lengthProbe data littleEndian h] at hs
      simp only [Option.some.injEq, Prod.mk.injEq, and_true] at hs
      subst hs
      refine ⟨Nat.le_refl 8, Nat.le_refl 8, Nat.le_refl 8, ?_⟩
      show 8 ≤ data.length - 24
      omega

/-- Witness of C15: the model reader on payloads of 40, 50 and 35 bytes, two
elements each. -/
theorem decoders_stay_in_bounds_witness :
    (∃ points, unWKBLineString specWkb (List.replicate 40 0) true ((2 : Nat) : Int)
      = some (points, none)) ∧
    (unWKBMultiPoint specWkb (List.replicate 50 0) true ((2 : Nat) : Int)).isSome ∧
    (∃ s, unWKBSegment specWkb (List.replicate 35 0) true = some (s, none)) :=
  ⟨((decoders_stay_in_bounds specWkb
      (fun d le h => by simp [specWkb, specReadFloat64, h])
      (List.replicate 40 0) true 2).1 (by decide)).1,
   (decoders_stay_in_bounds specWkb
      (fun d le h => by simp [specWkb, specReadFloat64, h])
      (List.replicate 50 0) true 2).2.1 (by decide),
   ((decoders_stay_in_bounds specWkb
      (fun d le h => by simp [specWkb, specReadFloat64, h])
      (List.replicate 35 0) true 2).2.2 (by decide)).1⟩

/-! ## The projection helpers of `project/helpers.go` -/

namespace project

theorem length_forRange {α β : Type} (f : α → β) :
    ∀ (xs : List α) (i : Nat) (n : List β), (forRange f xs i n).length = n.length := by
  intro xs
  induction xs with
  | nil => intro i n; rfl
  | cons x rest ih => intro i n; simp [forRange, ih]

theorem getElem?_forRange {α β : Type} (f : α → β) :
    ∀ (xs : List α) (i : Nat) (n : List β) (j : Nat), i + xs.length ≤ n.length →
      (forRange f xs i n)[j]? =
        if j < i then n[j]? else if j < i + xs.length then (xs[j - i]?).map f else n[j]? := by
  intro xs
  induction xs with
  | nil =>
    intro i n j _
    simp only [forRange, List.length_nil, Nat.add_zero]
    split <;> rfl
  | cons x rest ih =>
    intro i n j h
    simp only [List.length_cons] at h
    rw [forRange, ih (i + 1) (n.set i (f x)) j (by simp; omega)]
    by_cases h1 : j < i
    · have h2 : j < i + 1 := by omega
      rw [if_pos h2, if_pos h1, List.getElem?_set_ne (by omega)]
    · by_cases h2 : j = i
      · subst h2
        have h3 : j < j + 1 := by omega
        have h4 : j < j + (x :: rest).length := by simp
        rw [if_pos h3, if_neg h1, if_pos h4, List.getElem?_set_self (by omega)]
        simp
      · have h3 : ¬ j < i + 1 := by omega
        rw [if_neg h3, if_neg h1]
        by_cases h4 : j < i + 1 + rest.length
        · have h5 : j < i + (x :: rest).length := by simp; omega
          have h6 : j - i = (j - (i + 1)) + 1 := by omega
          rw [if_pos h4, if_pos h5, h6, List.getElem?_cons_succ]
        · have h5 : ¬ j < i + (x :: rest).length := by simp; omega
          rw [if_neg h4, if_neg h5, List.getElem?_set_ne (by omega)]

/-- The make-and-fill loop of the helpers is a map over the input slice. -/
theorem forRange_eq_map {α β : Type} (f : α → β) (zero : β) (xs : List α) :
    forRange f xs 0 (List.replicate xs.length zero) = xs.map f := by
  apply List.ext_getElem?
  intro j
  rw [getElem?_forRange f xs 0 _ j (by simp)]
  by_cases h : j < xs.length
  · simp [h]
  · have h2 : ¬ j < 0 + xs.length := by omega
    rw [if_neg (Nat.not_lt_zero j), if_neg h2]
    rw [List.getElem?_eq_none (by simp; omega), List.getElem?_eq_none (by simp; omega)]

theorem MultiPointToPlanar_eq_map (mp : geo.MultiPoint) (proj : Projection) :
    MultiPointToPlanar mp proj = mp.map proj.ToPlanar :=
  forRange_eq_map _ _ mp

theorem MultiPointToGeo_eq_map (mp : MultiPoint) (proj : Projection) :
    MultiPointToGeo mp proj = mp.map proj.ToGeo :=
  forRange_eq_map _ _ mp

theorem PolygonToPlanar_eq_map (p : geo.Polygon) (proj : Projection) :
    PolygonToPlanar p proj = p.map (List.map proj.ToPlanar) := by
  unfold PolygonToPlanar
  rw [forRange_eq_map]
  exact List.map_congr_left (fun r _ => MultiPointToPlanar_eq_map r proj)

theorem PolygonToGeo_eq_map (p : Polygon) (proj : Projection) :
    PolygonToGeo p proj = p.map (List.map proj.ToGeo) := by
  unfold PolygonToGeo
  rw [forRange_eq_map]
  exact List.map_congr_left (fun r _ => MultiPointToGeo_eq_map r proj)

theorem MultiLineStringToPlanar_eq_map (mls : geo.MultiLineString) (proj : Projection) :
    MultiLineStringToPlanar mls proj = mls.map (List.map proj.ToPlanar) :=
  PolygonToPlanar_eq_map mls proj

theorem MultiLineStringToGeo_eq_map (mls : MultiLineString) (proj : Projection) :
    MultiLineStringToGeo mls proj = mls.map (List.map proj.ToGeo) :=
  PolygonToGeo_eq_map mls proj

theorem MultiPolygonToPlanar_eq_map (mp : geo.MultiPolygon) (proj : Projection) :
    MultiPolygonToPlanar mp proj = mp.map (List.map (List.map proj.ToPlanar)) := by
  unfold MultiPolygonToPlanar
  rw [forRange_eq_map]
  exact List.map_congr_left (fun p _ => PolygonToPlanar_eq_map p proj)

theorem MultiPolygonToGeo_eq_map (mp : MultiPolygon) (proj : Projection) :
    MultiPolygonToGeo mp proj = mp.map (List.map (List.map proj.ToGeo)) := by
  unfold MultiPolygonToGeo
  rw [forRange_eq_map]
  exact List.map_congr_left (fun p _ => PolygonToGeo_eq_map p proj)

/-- C18: for every projection, `MultiPointToPlanar` returns a sequence of the
length of its input whose element i is `proj.ToPlanar` of element i of the input,
and likewise `MultiPointToGeo` with `proj.ToGeo`; the LineString, Ring,
MultiLineString, Polygon and MultiPolygon conversions map every point with the
same point projection and keep the length at every nesting level, being maps
over the nested sequences. -/
theorem helpers_map_points (proj : Projection) :
    (∀ mp : geo.MultiPoint,
      (MultiPointToPlanar mp proj).length = mp.length ∧
      ∀ i (h : i < mp.length),
        (MultiPointToPlanar mp proj)[i]? = some (proj.ToPlanar (mp.get ⟨i, h⟩))) ∧
    (∀ mp : MultiPoint,
      (MultiPointToGeo mp proj).length = mp.length ∧
      ∀ i (h : i < mp.length),
        (MultiPointToGeo mp proj)[i]? = some (proj.ToGeo (mp.get ⟨i, h⟩))) ∧
    (∀ ls : geo.LineString, LineStringToPlanar ls proj = ls.map proj.ToPlanar) ∧
    (∀ ls : LineString, LineStringToGeo ls proj = ls.map proj.ToGeo) ∧
    (∀ r : geo.Ring, RingToPlanar r proj = r.map proj.ToPlanar) ∧
    (∀ r : Ring, RingToGeo r proj = r.map proj.ToGeo) ∧
    (∀ mls : geo.MultiLineString,
      MultiLineStringToPlanar mls proj = mls.map (List.map proj.ToPlanar)) ∧
    (∀ mls : MultiLineString,
      MultiLineStringToGeo mls proj = mls.map (List.map proj.ToGeo)) ∧
    (∀ p : geo.Polygon, PolygonToPlanar p proj = p.map (List.map proj.ToPlanar)) ∧
    (∀ p : Polygon, PolygonToGeo p proj = p.map (List.map proj.ToGeo)) ∧
    (∀ mp : geo.MultiPolygon,
      MultiPolygonToPlanar mp proj = mp.map (List.map (List.map proj.ToPlanar))) ∧
    (∀ mp : MultiPolygon,
      MultiPolygonToGeo mp proj = mp.map (List.map (List.map proj.ToGeo))) := by
  refine ⟨?_, ?_, fun ls => MultiPointToPlanar_eq_map ls proj,
    fun ls => MultiPointToGeo_eq_map ls proj,
    fun r => MultiPointToPlanar_eq_map r proj, fun r => MultiPointToGeo_eq_map r proj,
    fun mls => MultiLineStringToPlanar_eq_map mls proj,
    fun mls => MultiLineStringToGeo_eq_map mls proj,
    fun p => PolygonToPlanar_eq_map p proj, fun p => PolygonToGeo_eq_map p proj,
    fun mp => MultiPolygonToPlanar_eq_map mp proj,
    fun mp => MultiPolygonToGeo_eq_map mp proj⟩
  · intro mp
    rw [MultiPointToPlanar_eq_map]
    exact ⟨by simp, fun i h => by simp [h]⟩
  · intro mp
    rw [MultiPointToGeo_eq_map]
    exact ⟨by simp, fun i h => by simp [h]⟩

/-- Witness of C18: the projection that swaps the coordinates, on a two-point
sequence. -/
theorem helpers_map_points_witness :
    (MultiPointToPlanar [⟨1, 2⟩, ⟨3, 4⟩] sampleProjection).length = 2 ∧
    (MultiPointToPlanar [⟨1, 2⟩, ⟨3, 4⟩] sampleProjection)[1]? = some ⟨4, 3⟩ ∧
    PolygonToPlanar [[⟨1, 1⟩, ⟨2, 1⟩, ⟨1, 1⟩]] sampleProjection
      = [[⟨1, 1⟩, ⟨1, 2⟩, ⟨1, 1⟩]] :=
  ⟨((helpers_map_points sampleProjection).1 [⟨1, 2⟩, ⟨3, 4⟩]).1,
   ((helpers_map_points sampleProjection).1 [⟨1, 2⟩, ⟨3, 4⟩]).2 1 (by decide),
   (helpers_map_points sampleProjection).2.2.2.2.2.2.2.2.1 [[⟨1, 1⟩, ⟨2, 1⟩, ⟨1, 1⟩]]⟩

/-- C19: for every projection whose point maps satisfy ToGeo (ToPlanar p) = p for
every geo point p, converting to planar and back is the identity on every
MultiPoint, LineString, MultiLineString, Ring, Polygon and MultiPolygon. -/
theorem helpers_round_trip (proj : Projection)
    (hproj : ∀ p : geo.Point, proj.ToGeo (proj.ToPlanar p) = p) :
    (∀ mp : geo.MultiPoint, MultiPointToGeo (MultiPointToPlanar mp proj) proj = mp) ∧
    (∀ ls : geo.LineString, LineStringToGeo (LineStringToPlanar ls proj) proj = ls) ∧
    (∀ mls : geo.MultiLineString,
      MultiLineStringToGeo (MultiLineStringToPlanar mls proj) proj = mls) ∧
    (∀ r : geo.Ring, RingToGeo (RingToPlanar r proj) proj = r) ∧
    (∀ p : geo.Polygon, PolygonToGeo (PolygonToPlanar p proj) proj = p) ∧
    (∀ mp : geo.MultiPolygon,
      MultiPolygonToGeo (MultiPolygonToPlanar mp proj) proj = mp) := by
  have hid : (proj.ToGeo ∘ proj.ToPlanar) = id := funext hproj
  have h1 : ∀ mp : geo.MultiPoint, MultiPointToGeo (MultiPointToPlanar mp proj) proj = mp := by
    intro mp
    rw [MultiPointToPlanar_eq_map, MultiPointToGeo_eq_map, List.map_map, hid, List.map_id]
  have h2 : ∀ p : geo.Polygon, PolygonToGeo (PolygonToPlanar p proj) proj = p := by
    intro p
    rw [PolygonToPlanar_eq_map, PolygonToGeo_eq_map, List.map_map, List.map_comp_map, hid,
      List.map_id_fun, List.map_id]
  refine ⟨h1, h1, h2, h1, h2, ?_⟩
  intro mp
  rw [MultiPolygonToPlanar_eq_map, MultiPolygonToGeo_eq_map, List.map_map, List.map_comp_map,
    List.map_comp_map, hid, List.map_id_fun, List.map_id_fun, List.map_id]

/-- Witness of C19: the projection that swaps the coordinates, on a two-point
sequence and on a polygon of one ring. -/
theorem helpers_round_trip_witness :
    MultiPointToGeo (MultiPointToPlanar [⟨1, 2⟩, ⟨3, 4⟩] sampleProjection) sampleProjection
      = [⟨1, 2⟩, ⟨3, 4⟩] ∧
    PolygonToGeo (PolygonToPlanar [[⟨1, 1⟩, ⟨2, 1⟩, ⟨1, 1⟩]] sampleProjection) sampleProjection
      = [[⟨1, 1⟩, ⟨2, 1⟩, ⟨1, 1⟩]] :=
  ⟨(helpers_round_trip sampleProjection (fun _ => rfl)).1 _,
   (helpers_round_trip sampleProjection (fun _ => rfl)).2.2.2.2.1 _⟩
mutual
theorem ToPlanar_isSome (planarPkg : PlanarPkg) (proj : Projection) :
    ∀ g : geo.Geometry, g.isSupported = true →
      ∃ pg, ToPlanar planarPkg g proj = some pg ∧ pg.kind = g.kind
  | .point _, _ => ⟨_, rfl, rfl⟩
  | .multiPoint _, _ => ⟨_, rfl, rfl⟩
  | .lineString _, _ => ⟨_, rfl, rfl⟩
  | .multiLineString _, _ => ⟨_, rfl, rfl⟩
  | .ring _, _ => ⟨_, rfl, rfl⟩
  | .polygon _, _ => ⟨_, rfl, rfl⟩
  | .multiPolygon _, _ => ⟨_, rfl, rfl⟩
  | .bound _, _ => ⟨_, rfl, rfl⟩
  | .unsupported, h => by simp [geo.Geometry.isSupported] at h
  | .collection coll, h => by
    have hc : geo.Geometry.allSupported coll = true := by
      simpa [geo.Geometry.isSupported] using h
    obtain ⟨res, hres, _⟩ := CollectionToPlanar_loop_isSome planarPkg proj coll 0
      (List.replicate coll.length Geometry.unsupported) hc (by simp)
    exact ⟨.collection res, by simp [ToPlanar, hres], rfl⟩
theorem CollectionToPlanar_loop_isSome (planarPkg : PlanarPkg) (proj : Projection) :
    ∀ (coll : List geo.Geometry) (i : Nat) (n : List Geometry),
      geo.Geometry.allSupported coll = true → i + coll.length ≤ n.length →
      ∃ res, CollectionToPlanar.loop planarPkg coll proj i n = some res ∧
        res.length = n.length ∧ (∀ j, j < i → res[j]? = n[j]?) ∧
        ∀ j, j < coll.length → ∃ gj pj, coll[j]? = some gj ∧ res[i + j]? = some pj ∧
          ToPlanar planarPkg gj proj = some pj
  | [], i, n, _, _ => ⟨n, rfl, rfl, fun _ _ => rfl, fun j hj => absurd hj (Nat.not_lt_zero j)⟩
  | g :: rest, i, n, h, hlen => by
    have hg : g.isSupported = true ∧ geo.Geometry.allSupported rest = true := by
      simpa [geo.Geometry.allSupported] using h
    obtain ⟨pg, hpg, _⟩ := ToPlanar_isSome planarPkg proj g hg.1
    simp only [List.length_cons] at hlen
    obtain ⟨res, hres, h1, h2, h3⟩ := CollectionToPlanar_loop_isSome planarPkg proj rest (i + 1)
      (n.set i pg) hg.2 (by simp; omega)
    refine ⟨res, by simp [CollectionToPlanar.loop, hpg, hres], by simpa using h1, ?_, ?_⟩
    · intro j hj
      rw [h2 j (by omega), List.getElem?_set_ne (by omega)]
    · intro j hj
      cases j with
      | zero =>
        refine ⟨g, pg, by simp, ?_, hpg⟩
        rw [Nat.add_zero, h2 i (by omega), List.getElem?_set_self (by omega)]
      | succ k =>
        obtain ⟨gk, pk, hk1, hk2, hk3⟩ := h3 k (by simp at hj; omega)
        refine ⟨gk, pk, by simpa using hk1, ?_, hk3⟩
        rw [← hk2]
        congr 1
        omega
end

mutual
theorem ToGeo_isSome (geoPkg : GeoPkg) (proj : Projection) :
    ∀ g : Geometry, g.isSupported = true →
      ∃ gg, ToGeo geoPkg g proj = some gg ∧ gg.kind = g.kind
  | .point _, _ => ⟨_, rfl, rfl⟩
  | .multiPoint _, _ => ⟨_, rfl, rfl⟩
  | .lineString _, _ => ⟨_, rfl, rfl⟩
  | .multiLineString _, _ => ⟨_, rfl, rfl⟩
  | .ring _, _ => ⟨_, rfl, rfl⟩
  | .polygon _, _ => ⟨_, rfl, rfl⟩
  | .multiPolygon _, _ => ⟨_, rfl, rfl⟩
  | .bound _, _ => ⟨_, rfl, rfl⟩
  | .unsupported, h => by simp [Geometry.isSupported] at h
  | .collection coll, h => by
    have hc : Geometry.allSupported coll = true := by
      simpa [Geometry.isSupported] using h
    obtain ⟨res, hres, _⟩ := CollectionToGeo_loop_isSome geoPkg proj coll 0
      (List.replicate coll.length geo.Geometry.unsupported) hc (by simp)
    exact ⟨.collection res, by simp [ToGeo, hres], rfl⟩
theorem CollectionToGeo_loop_isSome (geoPkg : GeoPkg) (proj : Projection) :
    ∀ (coll : List Geometry) (i : Nat) (n : List geo.Geometry),
      Geometry.allSupported coll = true → i + coll.length ≤ n.length →
      ∃ res, CollectionToGeo.loop geoPkg coll proj i n = some res ∧
        res.length = n.length ∧ (∀ j, j < i → res[j]? = n[j]?) ∧
        ∀ j, j < coll.length → ∃ pj gj, coll[j]? = some pj ∧ res[i + j]? = some gj ∧
          ToGeo geoPkg pj proj = some gj
  | [], i, n, _, _ => ⟨n, rfl, rfl, fun _ _ => rfl, fun j hj => absurd hj (Nat.not_lt_zero j)⟩
  | g :: rest, i, n, h, hlen => by
    have hg : g.isSupported = true ∧ Geometry.allSupported rest = true := by
      simpa [Geometry.allSupported] using h
    obtain ⟨gg, hgg, _⟩ := ToGeo_isSome geoPkg proj g hg.1
    simp only [List.length_cons] at hlen
    obtain ⟨res, hres, h1, h2, h3⟩ := CollectionToGeo_loop_isSome geoPkg proj rest (i + 1)
      (n.set i gg) hg.2 (by simp; omega)
    refine ⟨res, by simp [CollectionToGeo.loop, hgg, hres], by simpa using h1, ?_, ?_⟩
    · intro j hj
      rw [h2 j (by omega), List.getElem?_set_ne (by omega)]
    · intro j hj
      cases j with
      | zero =>
        refine ⟨g, gg, by simp, ?_, hgg⟩
        rw [Nat.add_zero, h2 i (by omega), List.getElem?_set_self (by omega)]
      | succ k =>
        obtain ⟨pk, gk, hk1, hk2, hk3⟩ := h3 k (by simp at hj; omega)
        refine ⟨pk, gk, by simpa using hk1, ?_, hk3⟩
        rw [← hk2]
        congr 1
        omega
end

/-- C20: for every geo geometry built from the nine supported kinds, collections
nested to any finite depth included, `ToPlanar` returns, without reaching the
panic "geometry type not supported", a planar geometry of the same kind; for a
collection the result is a collection with the same number of elements whose
element i is `ToPlanar` of element i of the input.  The symmetric statement holds
for `ToGeo`. -/
theorem ToPlanar_ToGeo_supported (planarPkg : PlanarPkg) (geoPkg : GeoPkg)
    (proj : Projection) :
    (∀ g : geo.Geometry, g.isSupported = true →
      ∃ pg, ToPlanar planarPkg g proj = some pg ∧ pg.kind = g.kind ∧
        ∀ coll, g = .collection coll →
          ∃ pc, pg = .collection pc ∧ pc.length = coll.length ∧
            ∀ i, i < coll.length → ∃ gi pi, coll[i]? = some gi ∧ pc[i]? = some pi ∧
              ToPlanar planarPkg gi proj = some pi) ∧
    (∀ g : Geometry, g.isSupported = true →
      ∃ gg, ToGeo geoPkg g proj = some gg ∧ gg.kind = g.kind ∧
        ∀ coll, g = .collection coll →
          ∃ gc, gg = .collection gc ∧ gc.length = coll.length ∧
            ∀ i, i < coll.length → ∃ pi gi, coll[i]? = some pi ∧ gc[i]? = some gi ∧
              ToGeo geoPkg pi proj = some gi) := by
  constructor
  · intro g hg
    obtain ⟨pg, hpg, hkind⟩ := ToPlanar_isSome planarPkg proj g hg
    refine ⟨pg, hpg, hkind, ?_⟩
    intro coll hc
    subst hc
    have hs : geo.Geometry.allSupported coll = true := by
      simpa [geo.Geometry.isSupported] using hg
    obtain ⟨res, hres, h1, _, h3⟩ := CollectionToPlanar_loop_isSome planarPkg proj coll 0
      (List.replicate coll.length Geometry.unsupported) hs (by simp)
    have hpg2 : pg = .collection res := by
      simp only [ToPlanar, hres, Option.some.injEq] at hpg
      exact hpg.symm
    refine ⟨res, hpg2, by simpa using h1, ?_⟩
    intro i hi
    obtain ⟨gi, pi, a, b, d⟩ := h3 i hi
    exact ⟨gi, pi, a, by simpa using b, d⟩
  · intro g hg
    obtain ⟨gg, hgg, hkind⟩ := ToGeo_isSome geoPkg proj g hg
    refine ⟨gg, hgg, hkind, ?_⟩
    intro coll hc
    subst hc
    have hs : Geometry.allSupported coll = true := by
      simpa [Geometry.isSupported] using hg
    obtain ⟨res, hres, h1, _, h3⟩ := CollectionToGeo_loop_isSome geoPkg proj coll 0
      (List.replicate coll.length geo.Geometry.unsupported) hs (by simp)
    have hgg2 : gg = .collection res := by
      simp only [ToGeo, hres, Option.some.injEq] at hgg
      exact hgg.symm
    refine ⟨res, hgg2, by simpa using h1, ?_⟩
    intro i hi
    obtain ⟨pi, gi, a, b, d⟩ := h3 i hi
    exact ⟨pi, gi, a, by simpa using b, d⟩

/-- Witness of C20: a collection that holds a point, a nested collection and a
polygon converts in both directions. -/
theorem ToPlanar_ToGeo_supported_witness :
    (∃ pg, ToPlanar samplePlanarPkg sampleGeoCollection sampleProjection = some pg ∧
      pg.kind = Kind.collection) ∧
    (∃ gg, ToGeo sampleGeoPkg samplePlanarCollection sampleProjection = some gg ∧
      gg.kind = Kind.collection) :=
  ⟨(((ToPlanar_ToGeo_supported samplePlanarPkg sampleGeoPkg sampleProjection).1
      sampleGeoCollection (by decide)).imp fun _ h => ⟨h.1, h.2.1⟩),
   (((ToPlanar_ToGeo_supported samplePlanarPkg sampleGeoPkg sampleProjection).2
      samplePlanarCollection (by decide)).imp fun _ h => ⟨h.1, h.2.1⟩)⟩

end project

end Orb
